import Mathlib

/-
Verification of the client-side simulation core of 8bitQuest
(src/client/ts: transition.ts, timer.ts in bubble.ts, pathfinder.ts,
character.ts, entity.ts in bubble.ts, updater.ts).

Shallow embedding conventions:
* JS numbers are modelled as exact rationals (ℚ) for times and values and
  as integers (ℤ) for grid coordinates; `Math.round` is modelled as
  `fun x => ⌊x + 1/2⌋` which agrees with JS `Math.round` on all finite
  inputs (round half toward positive infinity).
* Mutating methods are embedded as state-passing functions returning the
  new state; registered callbacks (onUpdate, onComplete, before_step, ...)
  are external collaborators and are modelled as emitted events rather
  than as mutations, matching the spec which places them out of scope.
* Fields of the source classes keep their names wherever Lean allows.
-/

namespace Quest

/-! ## Timer (src/client/ts/timer.ts, concatenated into bubble.ts) -/

/-- State of the `Timer` class: `lastTime` and `duration` fields. -/
structure Timer where
  lastTime : ℚ
  duration : ℚ
deriving DecidableEq

/-- Constructor `new Timer(duration, startTime = 0)`. -/
def Timer.mk' (duration : ℚ) (startTime : ℚ := 0) : Timer :=
  { lastTime := startTime, duration := duration }

/-- Method `isOver(time)`: if `time - lastTime > duration` it rebases
`lastTime` to `time` and returns true, otherwise returns false. -/
def Timer.isOver (t : Timer) (time : ℚ) : Timer × Bool :=
  if t.duration < time - t.lastTime then ({ t with lastTime := time }, true)
  else (t, false)

/-- Method `reset(time = 0)`: rebases `lastTime`. -/
def Timer.reset (t : Timer) (time : ℚ := 0) : Timer :=
  { t with lastTime := time }

/-- Method `getRemaining(currentTime)`: `max(0, duration - (currentTime -
lastTime))`. The source body contains no assignment, so the state
component of the embedding is the unchanged timer. -/
def Timer.getRemaining (t : Timer) (currentTime : ℚ) : Timer × ℚ :=
  (t, max 0 (t.duration - (currentTime - t.lastTime)))

/-- Method `isRunning(currentTime)`: `currentTime - lastTime <= duration`.
The source body contains no assignment, so the state component of the
embedding is the unchanged timer. -/
def Timer.isRunning (t : Timer) (currentTime : ℚ) : Timer × Bool :=
  (t, decide (currentTime - t.lastTime ≤ t.duration))

/-! ## Transition (src/client/ts/transition.ts), the spec Interpolator -/

/-- JS `Math.round`: nearest integer, halves toward positive infinity. -/
def jsRound (x : ℚ) : ℤ := ⌊x + 1 / 2⌋

/-- State of the `Transition` class. The two callback fields
(`updateFunction`, `stopFunction`) are external collaborators; their
invocations are modelled as the `TEvent` emitted by `step`. -/
structure Transition where
  startTime : ℚ
  startValue : ℚ
  endValue : ℚ
  duration : ℚ
  inProgress : Bool
  count : ℕ
deriving DecidableEq

/-- Constructor state of `new Transition()`. -/
def Transition.init : Transition :=
  { startTime := 0, startValue := 0, endValue := 0, duration := 0,
    inProgress := false, count := 0 }

/-- What one `step` call did: nothing (inactive or frame-skip), an
`updateFunction(value)` invocation, or a completion.  A completion event
carries the value the source computed internally on that call (the source
does not pass it to `stopFunction`; it is recorded here for
specification purposes only). -/
inductive TEvent where
  | skip : TEvent
  | update : ℚ → TEvent
  | complete : ℚ → TEvent
deriving DecidableEq

/-- Method `start(currentTime, updateFunction, stopFunction, startValue,
endValue, duration)`: overwrites every field, sets `inProgress` and zeroes
the frame-skip counter.  The callback arguments are not part of the
modelled state. -/
def Transition.start (_t : Transition) (currentTime startValue endValue duration : ℚ) :
    Transition :=
  { startTime := currentTime, startValue := startValue, endValue := endValue,
    duration := duration, inProgress := true, count := 0 }

/-- Method `stop()`: clears `inProgress`. -/
def Transition.stop (t : Transition) : Transition :=
  { t with inProgress := false }

/-- Method `step(currentTime)`: no-op while inactive; decrements a pending
frame-skip count; otherwise computes `elapsed = currentTime - startTime`
clamped above (only) at `duration`, linearly interpolates, rounds with
`Math.round`, and either completes (when `elapsed === duration` or the
rounded value equals `endValue`) or emits `updateFunction(value)`. -/
def Transition.step (t : Transition) (currentTime : ℚ) : Transition × TEvent :=
  if t.inProgress = false then (t, .skip)
  else if 0 < t.count then ({ t with count := t.count - 1 }, .skip)
  else
    let elapsed0 := currentTime - t.startTime
    let elapsed := if t.duration < elapsed0 then t.duration else elapsed0
    let diff := t.endValue - t.startValue
    let value : ℚ := (jsRound (t.startValue + diff / t.duration * elapsed) : ℚ)
    if elapsed = t.duration ∨ value = t.endValue then
      (t.stop, .complete value)
    else (t, .update value)

/-- Method `isInProgress()`. -/
def Transition.isInProgress (t : Transition) : Bool := t.inProgress

/-- Run `step` at each time of a list in order, collecting the events. -/
def Transition.stepTimes (t : Transition) : List ℚ → Transition × List TEvent
  | [] => (t, [])
  | now :: rest =>
      let (t1, e) := t.step now
      let (t2, es) := t1.stepTimes rest
      (t2, e :: es)

/-- The spec's three-probe interpolator sequence: start a run at `t0`
from `a` to `b` over `D` and step at `t0`, `t0 + D/2`, `t0 + D`,
collecting the emitted events. -/
def Transition.probeRun (t0 D : ℚ) (a b : ℤ) : List TEvent :=
  ((Transition.init.start t0 (a : ℚ) (b : ℚ) D).stepTimes [t0, t0 + D / 2, t0 + D]).2

/-- The value a `TEvent` carries, if any. -/
def TEvent.val? : TEvent → Option ℚ
  | .skip => none
  | .update v => some v
  | .complete v => some v

/-- Whether a `TEvent` is a completion. -/
def TEvent.isComplete : TEvent → Bool
  | .complete _ => true
  | _ => false

/-! ## Pathfinder (src/client/ts/pathfinder.ts)

The collision grid is `number[][]`, row-major: `grid[y][x]`, `0` walkable
and `1` blocked.  The A* library itself (`src/client/js/lib/astar`) is not
part of the provided sources; it is modelled from the spec below
(`Quest.astar`). -/

/-- A grid cell, `(x, y)` with JS number coordinates. -/
abbrev Cell := ℤ × ℤ

/-- A collision grid, row-major (`grid[y][x]`). -/
abbrev Grid := List (List ℕ)

/-- Read `grid[y][x]`; `none` when the access would be out of bounds
(negative or past the end of the row list / row). -/
def getCell (g : Grid) (x y : ℤ) : Option ℕ :=
  if 0 ≤ x ∧ 0 ≤ y then (g[y.toNat]?).bind fun row => row[x.toNat]?
  else none

/-- Write `grid[y][x] = v`, as a pure update.  Out-of-bounds writes are
no-ops in this model; JS would instead throw (row missing) or extend the
row, which is exactly the divergence the out-of-bounds claims are about,
so the bounds themselves are tracked separately by `cellInBounds`. -/
def setCell (g : Grid) (x y : ℤ) (v : ℕ) : Grid :=
  if 0 ≤ x ∧ 0 ≤ y then
    match g[y.toNat]? with
    | some row => g.set y.toNat (row.set x.toNat v)
    | none => g
  else g

/-- The cell `(x, y)` names an existing entry of `g`. -/
def cellInBounds (g : Grid) (c : Cell) : Prop :=
  0 ≤ c.1 ∧ 0 ≤ c.2 ∧ c.2.toNat < g.length ∧ c.1.toNat < (g.getD c.2.toNat []).length

instance (g : Grid) (c : Cell) : Decidable (cellInBounds g c) := by
  unfold cellInBounds; infer_instance

/-- A cell is walkable when it holds a `0`. -/
def walkable (g : Grid) (c : Cell) : Prop := getCell g c.1 c.2 = some 0

instance (g : Grid) (c : Cell) : Decidable (walkable g c) := by
  unfold walkable; infer_instance

/-- The four orthogonal neighbours of a cell, in the fixed exploration
order left, up, right, down. -/
def nbrs (c : Cell) : List Cell :=
  [(c.1 - 1, c.2), (c.1, c.2 - 1), (c.1 + 1, c.2), (c.1, c.2 + 1)]

/-- Modelled from the spec: the breadth-first reachable set of the grid
search.  `reachN g t n` lists the walkable cells from which the target `t`
can be reached in at most `n` orthogonal steps over walkable cells.  This
is the layer structure of the missing `src/client/js/lib/astar` library
("Run grid search from entity's current cell to `(targetX, targetY)`"). -/
def reachN (g : Grid) (t : Cell) : ℕ → List Cell
  | 0 => if walkable g t then [t] else []
  | n + 1 =>
      let r := reachN g t n
      r ++ ((r.flatMap nbrs).filter fun c => walkable g c ∧ c ∉ r).dedup

/-- Modelled from the spec: search distance to the target — the least
layer (up to `fuel`) containing the cell. -/
def distUpTo (g : Grid) (t : Cell) (c : Cell) : ℕ → Option ℕ
  | 0 => if c ∈ reachN g t 0 then some 0 else none
  | n + 1 =>
      match distUpTo g t c n with
      | some k => some k
      | none => if c ∈ reachN g t (n + 1) then some (n + 1) else none

/-- Fuel sufficient for any search on `g`: the total number of cells. -/
def gridFuel (g : Grid) : ℕ := (g.map List.length).sum

/-- Modelled from the spec: descend from a cell at search distance `k`
toward the target, each step moving to the first neighbour (in `nbrs`
order, the deterministic tie-break) whose search distance is one less. -/
def descend (g : Grid) (t : Cell) (fuel : ℕ) : Cell → ℕ → List Cell
  | _, 0 => []
  | c, k + 1 =>
      match (nbrs c).find? (fun d => distUpTo g t d fuel = some k) with
      | some d => d :: descend g t fuel d k
      | none => []

/-- Modelled from the spec: the grid search of the missing
`src/client/js/lib/astar` library.  Returns a shortest path of cells from
`start` to `target` inclusive (so `start = target` yields a length-1
path), the empty list when `target` is unreachable, out of bounds or
blocked, or the grid degenerate — "zero-size grids or out-of-bounds goals
must fail by returning an empty path, never indexing out of bounds". -/
def astar (g : Grid) (s t : Cell) : List Cell :=
  if walkable g s ∧ walkable g t then
    match distUpTo g t s (gridFuel g) with
    | some k => s :: descend g t (gridFuel g) s k
    | none => []
  else []

/-- An entity as the pathfinder sees it (`PathfindingEntity`):
grid position, next grid position, and the `isMoving()` observation. -/
structure PEntity where
  gridX : ℤ
  gridY : ℤ
  nextGridX : ℤ
  nextGridY : ℤ
  moving : Bool
deriving DecidableEq

/-- The cell `applyIgnoreList_` touches for an entity: its next cell if
mid-motion, else its current cell. -/
def exclCell (e : PEntity) : Cell :=
  (if e.moving then e.nextGridX else e.gridX, if e.moving then e.nextGridY else e.gridY)

/-- State of the `Pathfinder` class. -/
structure Pathfinder where
  width : ℕ
  height : ℕ
  grid : Option Grid
  blankGrid : Grid
  ignored : List PEntity

/-- Constructor `new Pathfinder(width, height)`: builds the obstacle-free
`blankGrid` of the same dimensions, null `grid`, empty ignore list. -/
def Pathfinder.mk' (width height : ℕ) : Pathfinder :=
  { width := width, height := height, grid := none,
    blankGrid := List.replicate height (List.replicate width 0), ignored := [] }

/-- The body of the `applyIgnoreList_` loop for one entity: writes `v`
at the entity's exclusion cell when both coordinates are non-negative
(the only guard the source has). -/
def applyEntity (v : ℕ) (g : Grid) (e : PEntity) : Grid :=
  let c := exclCell e
  if 0 ≤ c.1 ∧ 0 ≤ c.2 then setCell g c.1 c.2 v else g

/-- Apply the `applyIgnoreList_` loop to a grid for a whole ignore list. -/
def applyEntities (L : List PEntity) (v : ℕ) (g : Grid) : Grid :=
  L.foldl (applyEntity v) g

/-- Method `applyIgnoreList_(ignored)`: marks each ignored entity's cell
walkable (`0`) when `ignored` is true, else blocked (`1`); a no-op when
`grid` is null. -/
def Pathfinder.applyIgnoreList (pf : Pathfinder) (ignored : Bool) : Pathfinder :=
  match pf.grid with
  | some g => { pf with grid := some (applyEntities pf.ignored (if ignored then 0 else 1) g) }
  | none => pf

/-- Method `ignoreEntity(entity)`: pushes a non-null entity. -/
def Pathfinder.ignoreEntity (pf : Pathfinder) (e : Option PEntity) : Pathfinder :=
  match e with
  | some e => { pf with ignored := pf.ignored ++ [e] }
  | none => pf

/-- Method `clearIgnoreList()`: runs `applyIgnoreList_(false)` — writing a
`1` into every ignored entity's cell, regardless of the value the cell
held before the ignore list was applied — then empties the list. -/
def Pathfinder.clearIgnoreList (pf : Pathfinder) : Pathfinder :=
  let pf1 := pf.applyIgnoreList false
  { pf1 with ignored := [] }

/-- The private scan of `findIncompletePath_`: walk the ideal path
backward from the goal (index `perfect.length - 1`) down to index `1`
(the start cell at index 0 is excluded by the loop condition `i > 0`) and
return the first index whose cell is walkable on the real grid. -/
def scanIdeal (g : Grid) (perfect : List Cell) : Option Cell :=
  ((List.range' 1 (perfect.length - 1)).reverse.map
    fun i => (perfect.get? i).getD (0, 0)).find? fun c => decide (walkable g c)

/-- Method `findIncompletePath_(start, end)`: compute the ideal path on
the obstacle-free `blankGrid`, scan it backward for the first cell
walkable on the real grid, and re-run the real search toward that cell;
if the scan finds nothing the result stays empty.  Note the source breaks
out of the loop after the first walkable cell, even when the re-run
search toward it also fails. -/
def Pathfinder.findIncompletePath (pf : Pathfinder) (s e : Cell) : List Cell :=
  let perfect := astar pf.blankGrid s e
  match scanIdeal (pf.grid.getD []) perfect with
  | some c => astar (pf.grid.getD []) s c
  | none => []

/-- Method `findPath(grid, entity, x, y, findIncomplete)`: adopt the
caller's grid, apply the ignore-list exclusions to it, search from the
entity's cell, and when that fails with `findIncomplete` set fall back to
`findIncompletePath_`.  The mutated grid stays in the returned state
(restoring it is the caller's job via `clearIgnoreList`). -/
def Pathfinder.findPath (pf : Pathfinder) (grid : Grid) (e : PEntity) (x y : ℤ)
    (findIncomplete : Bool) : Pathfinder × List Cell :=
  let s : Cell := (e.gridX, e.gridY)
  let pf1 := Pathfinder.applyIgnoreList { pf with grid := some grid } true
  let path := astar (pf1.grid.getD []) s (x, y)
  let path :=
    if path = [] ∧ findIncomplete = true then pf1.findIncompletePath s (x, y)
    else path
  (pf1, path)

/-- Manhattan distance, the search heuristic used to compare cells'
closeness to the goal. -/
def manhattan (c d : Cell) : ℕ := (c.1 - d.1).natAbs + (c.2 - d.2).natAbs

/-- The cells the `applyIgnoreList_` loop writes for an ignore list: each
entity's exclusion cell, when its coordinates pass the non-negativity
guard. -/
def touchedCells (L : List PEntity) : List Cell :=
  L.filterMap fun e =>
    if 0 ≤ (exclCell e).1 ∧ 0 ≤ (exclCell e).2 then some (exclCell e) else none

/-- Every ignore-list exclusion write of `applyIgnoreList_` (each ignored
entity's cell with non-negative coordinates) lands inside the grid; the
source only guards against negative coordinates, so this is exactly the
condition under which no out-of-bounds write happens. -/
def ignoreWritesInBounds (L : List PEntity) (g : Grid) : Prop :=
  ∀ e ∈ L, 0 ≤ (exclCell e).1 → 0 ≤ (exclCell e).2 → cellInBounds g (exclCell e)

instance (L : List PEntity) (g : Grid) : Decidable (ignoreWritesInBounds L g) := by
  unfold ignoreWritesInBounds; infer_instance

/-! ## Character (src/client/ts/character.ts) and Entity geometry
(src/client/ts/entity.ts, concatenated into bubble.ts)

Characters hold non-owning references to each other (`target`, the
`attackers` record keyed by id).  The object graph is embedded as a world
map from ids to character states; references become ids.  Sprite and
animation state are external collaborator concerns (spec §1 puts
rendering out of scope): animation method calls (`idle`, `walk`) and the
registered callbacks are modelled as emitted `CEvent`s.  The untyped
render cache `adjacentTiles` (reset by `moveTo_`) is likewise not part of
the modelled state. -/

/-- Character id (the `id` field, a JS number used as record key). -/
abbrev CharId := ℤ

/-- Orientation enum from shared gametypes. -/
inductive Dir where
  | up | down | left | right
deriving DecidableEq

/-- State of one `Character` (the fields of entity.ts and character.ts
that the modelled methods read or write).  `reqPath` is the single-slot
`request_path_callback`, an external path provider. -/
structure CharState where
  gridX : ℤ
  gridY : ℤ
  x : ℤ
  y : ℤ
  nextGridX : ℤ
  nextGridY : ℤ
  orientation : Dir
  path : Option (List Cell)
  newDestination : Option Cell
  destination : Option Cell
  step : ℕ
  interrupted : Bool
  target : Option CharId
  unconfirmedTarget : Option CharId
  attackers : List CharId
  attackCooldown : Timer
  isDead : Bool
  attackingMode : Bool
  followingMode : Bool
  reqPath : Option (ℤ → ℤ → List Cell)

/-- Constructor state of `new Character(id, kind)` (spatial fields from
the `Entity` base constructor, the rest from `Character`). -/
def CharState.init : CharState :=
  { gridX := 0, gridY := 0, x := 0, y := 0, nextGridX := -1, nextGridY := -1,
    orientation := .down, path := none, newDestination := none, destination := none,
    step := 0, interrupted := false, target := none, unconfirmedTarget := none,
    attackers := [], attackCooldown := Timer.mk' 800, isDead := false,
    attackingMode := false, followingMode := false, reqPath := none }

/-- The world: every character state, indexed by id. -/
abbrev World := CharId → CharState

/-- Update one character in the world. -/
def wupd (w : World) (i : CharId) (s : CharState) : World :=
  fun j => if j = i then s else w j

/-- Externally observable effects of the character methods: registered
callback invocations, animation changes, and the defensive console logs. -/
inductive CEvent where
  | beforeStep : CEvent
  | checkAggro : CEvent
  | stepCb : CEvent
  | startPathing : List Cell → CEvent
  | stopPathing : ℤ → ℤ → CEvent
  | animIdle : CEvent
  | animWalk : Dir → CEvent
  | deathCb : CEvent
  | logNoPathCb : CEvent
  | logAlreadyAttacked : CEvent
  | logNotAttacked : CEvent
  | logAlreadyTarget : CEvent
deriving DecidableEq

namespace Character

/-- Method `isMoving()`: `path !== null`. -/
def isMoving (s : CharState) : Bool := s.path.isSome

/-- Method `hasNextStep()`: `path.length - 1 > step` (on a non-null
path). -/
def hasNextStep (s : CharState) : Bool :=
  match s.path with
  | some p => decide (s.step < p.length - 1)
  | none => false

/-- Method `hasChangedItsPath()`: `newDestination !== null`. -/
def hasChangedItsPath (s : CharState) : Bool := s.newDestination.isSome

/-- Method `hasTarget()`: `target !== null`. -/
def hasTarget (s : CharState) : Bool := s.target.isSome

/-- Entity method `setGridPosition(x, y)`: sets the grid cell and the
pixel position (`tilesize` 16). -/
def setGridPosition (s : CharState) (x y : ℤ) : CharState :=
  { s with gridX := x, gridY := y, x := x * 16, y := y * 16 }

/-- Method `updatePositionOnGrid()`: snap to `path[step]`.  An index past
the end of the path (which the step-index invariant rules out) is a
no-op here where JS would poison the position with `undefined`. -/
def updatePositionOnGrid (s : CharState) : CharState :=
  match s.path with
  | some p =>
      match p.get? s.step with
      | some c => setGridPosition s c.1 c.2
      | none => s
  | none => s

/-- Method `walk(orientation)`: face the direction and play the walk
animation. -/
def walk (s : CharState) (o : Dir) : CharState × List CEvent :=
  ({ s with orientation := o }, [.animWalk o])

/-- Method `updateMovement()`: compare `path[step]` with `path[step - 1]`
in four independent ifs, each calling `walk`.  With `step = 0` JS reads
`path[-1] = undefined` and no comparison fires; the truncated `step - 1`
below reads `path[0] = path[step]` with the same effect. -/
def updateMovement (s : CharState) : CharState × List CEvent :=
  match s.path with
  | none => (s, [])
  | some p =>
      let cur := (p.get? s.step).getD (0, 0)
      let prev := (p.get? (s.step - 1)).getD (0, 0)
      let r1 := if cur.1 < prev.1 then walk s .left else (s, [])
      let r2 := if prev.1 < cur.1 then walk r1.1 .right else (r1.1, [])
      let r3 := if cur.2 < prev.2 then walk r2.1 .up else (r2.1, [])
      let r4 := if prev.2 < cur.2 then walk r3.1 .down else (r3.1, [])
      (r4.1, r1.2 ++ r2.2 ++ r3.2 ++ r4.2)

/-- Method `requestPathfindingTo(x, y)`: invoke the registered path
provider, or log and return an empty path when none is registered. -/
def requestPathfindingTo (s : CharState) (x y : ℤ) : List Cell × List CEvent :=
  match s.reqPath with
  | some f => (f x y, [])
  | none => ([], [.logNoPathCb])

/-- Method `continueTo(x, y)`: defer the new destination. -/
def continueTo (s : CharState) (x y : ℤ) : CharState :=
  { s with newDestination := some (x, y) }

/-- Method `isAttackedBy(character)`: membership in the attackers record. -/
def isAttackedBy (s : CharState) (a : CharId) : Bool := a ∈ s.attackers

/-- Method `addAttacker(character)` on the character at id `t`: register
the attacker unless already present (a duplicate is logged, not added). -/
def addAttacker (w : World) (t : CharId) (a : CharId) : World × List CEvent :=
  let s := w t
  if isAttackedBy s a then (w, [.logAlreadyAttacked])
  else (wupd w t { s with attackers := s.attackers ++ [a] }, [])

/-- Method `removeAttacker(character)` on the character at id `t`:
remove the attacker, logging when it was not registered. -/
def removeAttacker (w : World) (t : CharId) (a : CharId) : World × List CEvent :=
  let s := w t
  if isAttackedBy s a then (wupd w t { s with attackers := s.attackers.erase a }, [])
  else (w, [.logNotAttacked])

/-- Method `removeTarget()` on the character at id `a`: unregister on the
target (which is always a `Character` in this model) and clear the
`target` field. -/
def removeTarget (w : World) (a : CharId) : World × List CEvent :=
  match (w a).target with
  | some t =>
      let r := removeAttacker w t a
      (wupd r.1 a { r.1 a with target := none }, r.2)
  | none => (w, [])

/-- Method `setTarget(character)` on the character at id `a`: when the
target changes, first cleanly remove the previous one, then set the new
target and drop any unconfirmed one; re-setting the same target only
logs.  Note it never registers `a` on the target's attacker record. -/
def setTarget (w : World) (a b : CharId) : World × List CEvent :=
  if (w a).target ≠ some b then
    let r := if hasTarget (w a) then removeTarget w a else (w, [])
    (wupd r.1 a { r.1 a with unconfirmedTarget := none, target := some b }, r.2)
  else (w, [.logAlreadyTarget])

/-- Method `stop()`: only sets the `interrupted` flag, and only while
moving; consumption happens at the next `nextStep()`. -/
def stop (w : World) (a : CharId) : World :=
  if isMoving (w a) then wupd w a { w a with interrupted := true } else w

/-- The next-cell lookahead of `nextStep()`: when the path has a further
step, record `path[step + 1]` as the next grid cell. -/
def advanceNextGrid (s : CharState) (p : List Cell) : CharState :=
  if hasNextStep s then
    { s with nextGridX := ((p.get? (s.step + 1)).getD (0, 0)).1,
             nextGridY := ((p.get? (s.step + 1)).getD (0, 0)).2 }
  else s

mutual

/-- Method `nextStep()`, the sole path-advancement point: snap to the
current path cell, fire the aggro check, then either consume a pending
`stop()` flag, re-path toward a deferred destination, advance the step
cursor, or finish; the halt branch clears the path, returns to the idle
animation and fires the stop-pathing callback.  The `fuel` bounds the
`followPath` / `nextStep` mutual recursion (which the deferred-destination
reset bounds at depth two in the source). -/
def nextStepF : ℕ → World → CharId → World × List CEvent
  | 0, w, _ => (w, [])
  | fuel + 1, w, a =>
      let s := w a
      match s.path with
      | none => (w, [])
      | some p =>
          let s1 := updatePositionOnGrid s
          let ev1 := [CEvent.beforeStep, CEvent.checkAggro]
          if s1.interrupted then
            let s2 := { s1 with interrupted := false, path := none }
            (wupd w a s2, ev1 ++ [.animIdle, .stopPathing s2.gridX s2.gridY])
          else
            let s2 := advanceNextGrid s1 p
            let ev2 := ev1 ++ [CEvent.stepCb]
            match s2.newDestination with
            | some d =>
                let pr := requestPathfindingTo s2 d.1 d.2
                let s3 := { s2 with newDestination := none }
                if pr.1.length < 2 then
                  let s4 := { s3 with path := none }
                  (wupd w a s4, ev2 ++ pr.2 ++ [.animIdle, .stopPathing s4.gridX s4.gridY])
                else
                  let r := followPathF fuel (wupd w a s3) a pr.1
                  (r.1, ev2 ++ pr.2 ++ r.2)
            | none =>
                if hasNextStep s2 then
                  let r := updateMovement { s2 with step := s2.step + 1 }
                  (wupd w a r.1, ev2 ++ r.2)
                else
                  let s4 := { s2 with path := none }
                  (wupd w a s4, ev2 ++ [.animIdle, .stopPathing s4.gridX s4.gridY])

/-- Method `followPath(path)`: adopt a path longer than one cell, reset
the step cursor, trim the last cell in following mode (the source `pop`s
the array `this.path` aliases), fire the start-pathing callback and take
the first step. -/
def followPathF : ℕ → World → CharId → List Cell → World × List CEvent
  | fuel, w, a, p =>
      if 1 < p.length then
        let s := w a
        let p1 := if s.followingMode then p.dropLast else p
        let w1 := wupd w a { s with path := some p1, step := 0 }
        let r := nextStepF fuel w1 a
        (r.1, [CEvent.startPathing p1] ++ r.2)
      else (w, [])

end

/-- Method `moveTo_(x, y)`: record the destination, then defer (already
moving) or request a fresh path and follow it. -/
def moveToF (fuel : ℕ) (w : World) (a : CharId) (x y : ℤ) : World × List CEvent :=
  let s := { w a with destination := some (x, y) }
  let w1 := wupd w a s
  if isMoving s then (wupd w1 a (continueTo s x y), [])
  else
    let pr := requestPathfindingTo s x y
    let r := followPathF fuel w1 a pr.1
    (r.1, pr.2 ++ r.2)

/-- Method `follow(entity)` with a non-null entity: set following mode
and move toward the entity's current cell. -/
def followF (fuel : ℕ) (w : World) (a e : CharId) : World × List CEvent :=
  let w1 := wupd w a { w a with followingMode := true }
  moveToF fuel w1 a (w1 e).gridX (w1 e).gridY

/-- Method `engage(character)`: enter attacking mode, set the target,
follow it. -/
def engageF (fuel : ℕ) (w : World) (a b : CharId) : World × List CEvent :=
  let w1 := wupd w a { w a with attackingMode := true }
  let r1 := setTarget w1 a b
  let r2 := followF fuel r1.1 a b
  (r2.1, r1.2 ++ r2.2)

/-- Fuel covering the deepest `followPath` / `nextStep` chain reachable
from the entry points (the deferred-destination reset bounds it at two
rounds). -/
def defaultFuel : ℕ := 8

/-- Entry point for `nextStep()`. -/
def nextStep (w : World) (a : CharId) : World × List CEvent := nextStepF defaultFuel w a

/-- Entry point for `engage(character)`. -/
def engage (w : World) (a b : CharId) : World × List CEvent := engageF defaultFuel w a b

/-- Method `disengage()`: leave attacking and following modes, then clear
the target (which also unregisters on the target). -/
def disengage (w : World) (a : CharId) : World × List CEvent :=
  let w1 := wupd w a { w a with attackingMode := false, followingMode := false }
  removeTarget w1 a

/-- Method `die()`: clear the target, set the terminal dead state, fire
the death notification. -/
def die (w : World) (a : CharId) : World × List CEvent :=
  let r := removeTarget w a
  (wupd r.1 a { r.1 a with isDead := true }, r.2 ++ [.deathCb])

/-- Entity method `getDistanceToEntity(entity)`: Chebyshev distance. -/
def getDistanceToEntity (s t : CharState) : ℤ :=
  max (t.gridX - s.gridX).natAbs (t.gridY - s.gridY).natAbs

/-- Entity method `isAdjacent(entity)`: within one tile (diagonals and
the shared cell included). -/
def isAdjacent (s t : CharState) : Bool := getDistanceToEntity s t ≤ 1

/-- Entity method `isAdjacentNonDiagonal(entity)`: adjacent and sharing a
row or a column. -/
def isAdjacentNonDiagonal (s t : CharState) : Bool :=
  isAdjacent s t && (s.gridX == t.gridX || s.gridY == t.gridY)

/-- Entity method `isDiagonallyAdjacent(entity)`: adjacent but not
non-diagonally so. -/
def isDiagonallyAdjacent (s t : CharState) : Bool :=
  isAdjacent s t && !isAdjacentNonDiagonal s t

/-- Method `canReachTarget()`: a target is held and it is adjacent
non-diagonally. -/
def canReachTarget (w : World) (a : CharId) : Bool :=
  match (w a).target with
  | some t => isAdjacentNonDiagonal (w a) (w t)
  | none => false

/-- Method `canAttack(time)`: `canReachTarget() &&
attackCooldown.isOver(time)` — the short-circuit means the consuming
cooldown check only runs once the target is reachable. -/
def canAttack (w : World) (a : CharId) (time : ℚ) : World × Bool :=
  if canReachTarget w a then
    let (tm, over) := (w a).attackCooldown.isOver time
    (wupd w a { w a with attackCooldown := tm }, over)
  else (w, false)

end Character

/-! ## Updater (src/client/ts/updater.ts), the Frame Orchestrator

The per-frame `update()` drives external collaborators (entities, camera,
renderer, bubble and info managers); what matters to the frame-ordering
and aggro claims is the order in which the phase methods run and the
aggro gate's own state (`playerAggroTimer`, the player's moving/attacking
observations, `game.currentTime`).  Each phase method's invocation is one
emitted `Phase`; the aggro phase additionally records whether it fired
the aggro check. -/

/-- The player observations `updatePlayerAggro` reads
(`player.isMoving()`, `player.isAttacking()`), or no player. -/
structure PlayerFlags where
  moving : Bool
  attacking : Bool
deriving DecidableEq

/-- Updater state: the game clock, the 1000 ms aggro timer and the player
observations. -/
structure UpdaterSt where
  currentTime : ℚ
  playerAggroTimer : Timer
  player : Option PlayerFlags
deriving DecidableEq

/-- Constructor `new Updater(game)`: `playerAggroTimer = new
Timer(1000)`. -/
def UpdaterSt.init (currentTime : ℚ) (player : Option PlayerFlags) : UpdaterSt :=
  { currentTime := currentTime, playerAggroTimer := Timer.mk' 1000, player := player }

/-- One phase method invocation of `Updater.update()`, in source order;
`aggroPoll` records whether the aggro check fired. -/
inductive Phase where
  | zoning : Phase
  | characters : Phase
  | aggroPoll : Bool → Phase
  | transitions : Phase
  | animations : Phase
  | animatedTiles : Phase
  | chatBubbles : Phase
  | infos : Phase
deriving DecidableEq

/-- Method `updatePlayerAggro()`: when a player exists, is neither moving
nor attacking, and the consuming 1000 ms timer has elapsed, invoke the
aggro check (the returned flag).  The `&&` chain means the timer is only
consulted (and rebased) once the earlier conjuncts hold. -/
def updatePlayerAggro (s : UpdaterSt) : UpdaterSt × Bool :=
  match s.player with
  | some p =>
      if p.moving = false ∧ p.attacking = false then
        ({ s with playerAggroTimer := (s.playerAggroTimer.isOver s.currentTime).1 },
          (s.playerAggroTimer.isOver s.currentTime).2)
      else (s, false)
  | none => (s, false)

/-- Method `Updater.update()`: the fixed per-frame phase sequence, in the
source's call order — `updateZoning`, `updateCharacters` (which starts
motion interpolators), `updatePlayerAggro`, `updateTransitions` (which
steps every character's interpolator and the zoning interpolator),
`updateAnimations`, `updateAnimatedTiles`, `updateChatBubbles`,
`updateInfos`. -/
def Updater.update (s : UpdaterSt) : UpdaterSt × List Phase :=
  let (s1, fired) := updatePlayerAggro s
  (s1, [.zoning, .characters, .aggroPoll fired, .transitions,
        .animations, .animatedTiles, .chatBubbles, .infos])

/-! ## Theorems -/

/-- C8: the cooldown `Timer` is a consuming check: two `isOver` calls at
`t1 ≤ t2` with `t2 - t1 ≤ duration` cannot both return true — a first
true rebases the reference time to `t1`, so the second returns false —
and the non-destructive inspections `isRunning` and `getRemaining` leave
the timer state unchanged. -/
theorem c8_timer_consuming (tm : Timer) (t1 t2 : ℚ) (_h12 : t1 ≤ t2)
    (hwin : t2 - t1 ≤ tm.duration) (hfirst : ((tm.isOver t1).2) = true) :
    (((tm.isOver t1).1.isOver t2).2) = false ∧
    (∀ q : ℚ, (tm.isRunning q).1 = tm ∧ (tm.getRemaining q).1 = tm) := by
  refine ⟨?_, fun q => ⟨rfl, rfl⟩⟩
  unfold Timer.isOver at hfirst ⊢
  by_cases h : tm.duration < t1 - tm.lastTime
  · simp only [h, if_true] at hfirst ⊢
    have : ¬ tm.duration < t2 - t1 := not_lt.mpr hwin
    simp [this]
  · simp [h] at hfirst

/-- C8 witness. -/
theorem c8_timer_consuming_witness :
    ((Timer.mk' 800 0).isOver 900).2 = true ∧
    (((Timer.mk' 800 0).isOver 900).1.isOver 1600).2 = false := by
  have h1 : ((Timer.mk' 800 0).isOver 900).2 = true := by
    simp only [Timer.isOver, Timer.mk']
    norm_num
  exact ⟨h1, (c8_timer_consuming (Timer.mk' 800 0) 900 1600 (by norm_num)
    (by simp only [Timer.mk']; norm_num) h1).1⟩

/-- C7: with a current target held, `canAttack(now)` returns true exactly
when the combatant is adjacent non-diagonally to the target (the source
notion: within one tile and sharing a row or column) and the attack
cooldown had elapsed at `now`; diagonal adjacency always yields false;
and a true result consumes the cooldown, rebasing its reference time to
`now`. -/
theorem c7_can_attack (w : World) (a b : CharId) (now : ℚ)
    (htgt : (w a).target = some b) :
    ((Character.canAttack w a now).2 = true ↔
      (Character.isAdjacentNonDiagonal (w a) (w b) = true ∧
        (w a).attackCooldown.duration < now - (w a).attackCooldown.lastTime)) ∧
    (Character.isDiagonallyAdjacent (w a) (w b) = true →
      (Character.canAttack w a now).2 = false) ∧
    ((Character.canAttack w a now).2 = true →
      ((Character.canAttack w a now).1 a).attackCooldown.lastTime = now) := by
  have hreach : Character.canReachTarget w a = Character.isAdjacentNonDiagonal (w a) (w b) := by
    unfold Character.canReachTarget
    rw [htgt]
  have hdiag : Character.isDiagonallyAdjacent (w a) (w b) =
      (Character.isAdjacent (w a) (w b) && !Character.isAdjacentNonDiagonal (w a) (w b)) := rfl
  unfold Character.canAttack
  rw [hreach]
  cases hadj : Character.isAdjacentNonDiagonal (w a) (w b) with
  | false => simp [hadj, hdiag]
  | true =>
    refine ⟨?_, ?_, ?_⟩
    · unfold Timer.isOver
      by_cases hcd : (w a).attackCooldown.duration < now - (w a).attackCooldown.lastTime
      · simp [hcd]
      · simp [hcd]
    · intro hdt
      rw [hdiag, hadj] at hdt
      simp at hdt
    · unfold Timer.isOver
      by_cases hcd : (w a).attackCooldown.duration < now - (w a).attackCooldown.lastTime
      · simp [hcd, wupd]
      · simp [hcd]

/-- C7 witness: a combatant at `(0,0)` targeting a combatant at `(1,0)`
(orthogonally adjacent) with an elapsed cooldown can attack at time
1000 (cooldown duration 800, reference time 0). -/
theorem c7_can_attack_witness :
    ((fun i => if i = (2 : ℤ) then
        { CharState.init with gridX := 1, gridY := 0 } else
        { CharState.init with target := some 2 } : World) 1).target = some 2 ∧
    ((Character.canAttack
      (fun i => if i = (2 : ℤ) then
        { CharState.init with gridX := 1, gridY := 0 } else
        { CharState.init with target := some 2 }) 1 1000).2 = true ↔
      (Character.isAdjacentNonDiagonal
        ((fun i => if i = (2 : ℤ) then
          { CharState.init with gridX := 1, gridY := 0 } else
          { CharState.init with target := some 2 } : World) 1)
        ((fun i => if i = (2 : ℤ) then
          { CharState.init with gridX := 1, gridY := 0 } else
          { CharState.init with target := some 2 } : World) 2) = true ∧
        (CharState.init.attackCooldown.duration <
          1000 - CharState.init.attackCooldown.lastTime))) := by
  refine ⟨by norm_num, ?_⟩
  exact (c7_can_attack
    (fun i => if i = (2 : ℤ) then
      { CharState.init with gridX := 1, gridY := 0 } else
      { CharState.init with target := some 2 }) 1 2 1000 (by norm_num)).1

/-- C4 counterexample: the source clamps `elapsed` above at `duration`
but not below at 0.  For a run started at `t0 = 100` from 0 to 10 over
10ms, `step(90)` computes `elapsed = -10` and emits `onUpdate(-10)` —
where the claimed `clamp(now - t0, 0, D)` semantics would compute
`elapsed = 0` and emit `onUpdate(0)`. -/
theorem c4_counterexample :
    ((Transition.init.start 100 0 10 10).step 90).2 = TEvent.update (-10) ∧
    (jsRound ((0 : ℚ) + (10 - 0) / 10 * (min (max ((90 : ℚ) - 100) 0) 10)) : ℚ) = 0 ∧
    TEvent.update (-10) ≠ TEvent.update (0 : ℚ) := by
  refine ⟨?_, ?_, ?_⟩
  · simp only [Transition.step, Transition.start, Transition.init, jsRound]
    norm_num
  · simp only [jsRound]
    norm_num
  · intro h
    rw [TEvent.update.injEq] at h
    norm_num at h

/-- C4 amended: `step(now)` while inactive changes nothing and emits
nothing; an active `step(now)` (no pending frame skip, positive duration)
computes `elapsed = min(now - t0, D)` — clamped above at `D` but not
below at 0, so negative when `now < t0` — rounds the linear interpolation
at that elapsed time, and either completes (marking the run inactive,
after which every further step is a no-op, so `onComplete` fires exactly
once) when `elapsed = D` or the rounded value equals the end value, or
else emits `onUpdate` of the rounded value leaving the state unchanged. -/
theorem c4_step_semantics :
    (∀ (t : Transition) (now : ℚ), t.inProgress = false →
      t.step now = (t, TEvent.skip)) ∧
    (∀ (t : Transition) (now : ℚ), t.inProgress = true → t.count = 0 → 0 < t.duration →
      ((min (now - t.startTime) t.duration = t.duration ∨
          (jsRound (t.startValue + (t.endValue - t.startValue) / t.duration *
            min (now - t.startTime) t.duration) : ℚ) = t.endValue) →
        t.step now = ({ t with inProgress := false },
          TEvent.complete (jsRound (t.startValue + (t.endValue - t.startValue) / t.duration *
            min (now - t.startTime) t.duration) : ℚ))) ∧
      (¬(min (now - t.startTime) t.duration = t.duration ∨
          (jsRound (t.startValue + (t.endValue - t.startValue) / t.duration *
            min (now - t.startTime) t.duration) : ℚ) = t.endValue) →
        t.step now = (t,
          TEvent.update (jsRound (t.startValue + (t.endValue - t.startValue) / t.duration *
            min (now - t.startTime) t.duration) : ℚ)))) := by
  constructor
  · intro t now hin
    simp [Transition.step, hin]
  · intro t now hact hcnt _hD
    have hmin : (if t.duration < now - t.startTime then t.duration else now - t.startTime) =
        min (now - t.startTime) t.duration := by
      rcases lt_or_le t.duration (now - t.startTime) with h | h
      · rw [if_pos h, min_eq_right h.le]
      · rw [if_neg (not_lt.mpr h), min_eq_left h]
    constructor
    · intro hdone
      simp only [Transition.step, hact, hcnt, Transition.stop]
      rw [if_neg (by simp), if_neg (by simp), hmin, if_pos hdone]
    · intro hdone
      simp only [Transition.step, hact, hcnt]
      rw [if_neg (by simp), if_neg (by simp), hmin, if_neg hdone]

/-- C4 witness: a run from 0 to 10 over 10ms started at 0 completes at
`step(10)` with value 10, and an inactive transition ignores `step`. -/
theorem c4_step_semantics_witness :
    Transition.init.step 5 = (Transition.init, TEvent.skip) ∧
    (Transition.init.start 0 0 10 10).step 10 =
      ({ Transition.init.start 0 0 10 10 with inProgress := false },
        TEvent.complete (jsRound ((0 : ℚ) + (10 - 0) / 10 *
          min ((10 : ℚ) - 0) 10) : ℚ)) := by
  refine ⟨c4_step_semantics.1 Transition.init 5 rfl, ?_⟩
  exact (c4_step_semantics.2 (Transition.init.start 0 0 10 10) 10 rfl rfl
    (by norm_num [Transition.start])).1 (Or.inl (by norm_num [Transition.start]))

/-- Rounding an integer value returns it unchanged. -/
theorem jsRound_intCast (n : ℤ) : jsRound (n : ℚ) = n := by
  unfold jsRound
  rw [Int.floor_eq_iff]
  constructor <;> [linarith; linarith]

/-- Characterization of an active `step` with no pending frame skip. -/
theorem step_eq_of_active (t : Transition) (now : ℚ)
    (hact : t.inProgress = true) (hcnt : t.count = 0) :
    t.step now =
      (if (if t.duration < now - t.startTime then t.duration else now - t.startTime) =
            t.duration ∨
          (jsRound (t.startValue + (t.endValue - t.startValue) / t.duration *
            (if t.duration < now - t.startTime then t.duration
             else now - t.startTime)) : ℚ) = t.endValue then
        ({ t with inProgress := false },
          TEvent.complete (jsRound (t.startValue + (t.endValue - t.startValue) / t.duration *
            (if t.duration < now - t.startTime then t.duration else now - t.startTime)) : ℚ))
      else
        (t, TEvent.update (jsRound (t.startValue + (t.endValue - t.startValue) / t.duration *
          (if t.duration < now - t.startTime then t.duration else now - t.startTime)) : ℚ))) := by
  simp [Transition.step, hact, hcnt, Transition.stop]

/-- The source's asymmetric clamp, as a `min`. -/
theorem if_lt_min (x y : ℚ) : (if y < x then y else x) = min x y := by
  rcases lt_or_le y x with h | h
  · rw [if_pos h, min_eq_right h.le]
  · rw [if_neg (not_lt.mpr h), min_eq_left h]

/-- A `step` of a freshly started run, in plain terms. -/
theorem step_run (t0 v0 v1 D now : ℚ) :
    (Transition.mk t0 v0 v1 D true 0).step now =
      (if min (now - t0) D = D ∨
          (jsRound (v0 + (v1 - v0) / D * min (now - t0) D) : ℚ) = v1 then
        (Transition.mk t0 v0 v1 D false 0,
          TEvent.complete (jsRound (v0 + (v1 - v0) / D * min (now - t0) D) : ℚ))
      else
        (Transition.mk t0 v0 v1 D true 0,
          TEvent.update (jsRound (v0 + (v1 - v0) / D * min (now - t0) D) : ℚ))) := by
  simp only [Transition.step, Transition.stop, if_lt_min]
  norm_num

/-- A `step` of a stopped run is a no-op. -/
theorem step_skip (t0 v0 v1 D : ℚ) (c : ℕ) (now : ℚ) :
    (Transition.mk t0 v0 v1 D false c).step now =
      (Transition.mk t0 v0 v1 D false c, TEvent.skip) := by
  simp [Transition.step]

/-- C5 counterexample: for `start(0, …, 0, 1, 10)` the probe `step(5)` at
the midpoint already rounds to the end value 1 and completes, so
`onComplete` fires strictly before `t0 + D = 10` (the claim says never
earlier than `t0 + D`). -/
theorem c5_counterexample :
    ((Transition.init.start 0 0 1 10).step 0).2 = TEvent.update 0 ∧
    (((Transition.init.start 0 0 1 10).step 0).1.step 5).2 = TEvent.complete 1 ∧
    (5 : ℚ) < 0 + 10 := by
  have h1 : (Transition.init.start 0 0 1 10).step 0 =
      (Transition.init.start 0 0 1 10, TEvent.update 0) := by
    rw [step_eq_of_active _ _ rfl rfl]
    norm_num [Transition.start, jsRound]
  refine ⟨by rw [h1], ?_, by norm_num⟩
  rw [h1]
  rw [step_eq_of_active _ _ rfl rfl]
  norm_num [Transition.start, jsRound]

/-- C5 amended: for `start(t0, …, v0, v1, D)` with `D > 0` and integer
endpoints, stepping at `t0`, `t0 + D/2`, `t0 + D` completes exactly once,
the computed rounded values progress monotonically (non-decreasing toward
`v1` when `v1 ≥ v0`, non-increasing otherwise) and the last computed
value is exactly `v1` — but the completion fires at the first probe whose
elapsed time reaches `D` or whose rounded value already equals `v1`,
which can be strictly before `t0 + D` (see the counterexample). -/
theorem c5_sequence (t0 D : ℚ) (a b : ℤ) (hD : 0 < D) :
    (Transition.probeRun t0 D a b).countP (fun e => e.isComplete) = 1 ∧
    (a ≤ b → ((Transition.probeRun t0 D a b).filterMap TEvent.val?).Chain' (· ≤ ·)) ∧
    (b ≤ a → ((Transition.probeRun t0 D a b).filterMap TEvent.val?).Chain'
      (fun u v => v ≤ u)) ∧
    ((Transition.probeRun t0 D a b).filterMap TEvent.val?).getLast? = some (b : ℚ) := by
  have hS : Transition.init.start t0 (a : ℚ) (b : ℚ) D =
      Transition.mk t0 (a : ℚ) (b : ℚ) D true 0 := rfl
  have hm0 : min (t0 - t0) D = 0 := by rw [sub_self]; exact min_eq_left hD.le
  rcases eq_or_ne a b with hab | hab
  · subst hab
    have hs1 : (Transition.mk t0 (a : ℚ) (a : ℚ) D true 0).step t0 =
        (Transition.mk t0 (a : ℚ) (a : ℚ) D false 0, TEvent.complete (a : ℚ)) := by
      rw [step_run]
      rw [if_pos (Or.inr (by rw [hm0]; simp [jsRound_intCast]))]
      rw [hm0]
      simp [jsRound_intCast]
    simp only [Transition.probeRun, Transition.stepTimes, hS, hs1, step_skip]
    refine ⟨by simp [TEvent.isComplete], ?_, ?_, ?_⟩ <;>
      simp [TEvent.val?]
  · have hne : ((a : ℚ) + ((b : ℚ) - (a : ℚ)) / D * min (t0 - t0) D) = (a : ℚ) := by
      rw [hm0]; ring
    have hs1 : (Transition.mk t0 (a : ℚ) (b : ℚ) D true 0).step t0 =
        (Transition.mk t0 (a : ℚ) (b : ℚ) D true 0, TEvent.update (a : ℚ)) := by
      rw [step_run]
      rw [if_neg ?hc]
      · rw [hne, jsRound_intCast]
      case hc =>
        rw [hm0]
        simp only [mul_zero, add_zero, jsRound_intCast]
        push_neg
        exact ⟨hD.ne, fun h => hab (Int.cast_injective h)⟩
    have hmidt : t0 + D / 2 - t0 = D / 2 := by ring
    have hmid : min (t0 + D / 2 - t0) D = D / 2 := by
      rw [hmidt]; exact min_eq_left (by linarith)
    have hmidv : ((a : ℚ) + ((b : ℚ) - (a : ℚ)) / D * min (t0 + D / 2 - t0) D) =
        ((a : ℚ) + (b : ℚ)) / 2 := by
      rw [hmid]; field_simp; ring
    have hmidD : ¬ min (t0 + D / 2 - t0) D = D := by
      rw [hmid]; intro h; linarith
    rcases eq_or_ne (jsRound (((a : ℚ) + (b : ℚ)) / 2)) b with hm | hm
    · -- the midpoint probe already rounds to the end value and completes
      have hs2 : (Transition.mk t0 (a : ℚ) (b : ℚ) D true 0).step (t0 + D / 2) =
          (Transition.mk t0 (a : ℚ) (b : ℚ) D false 0, TEvent.complete (b : ℚ)) := by
        rw [step_run]
        rw [if_pos (Or.inr (by rw [hmidv, hm]))]
        rw [hmidv, hm]
      simp only [Transition.probeRun, Transition.stepTimes, hS, hs1, hs2, step_skip]
      refine ⟨by simp [TEvent.isComplete], ?_, ?_, ?_⟩
      · intro h
        simp [TEvent.val?, List.chain'_cons, Int.cast_le.mpr h]
      · intro h
        simp [TEvent.val?, List.chain'_cons, Int.cast_le.mpr h]
      · simp [TEvent.val?]
    · -- the midpoint emits an intermediate value, the last probe completes
      have hs2 : (Transition.mk t0 (a : ℚ) (b : ℚ) D true 0).step (t0 + D / 2) =
          (Transition.mk t0 (a : ℚ) (b : ℚ) D true 0,
            TEvent.update ((jsRound (((a : ℚ) + (b : ℚ)) / 2) : ℤ) : ℚ)) := by
        rw [step_run]
        rw [if_neg ?hc2]
        · rw [hmidv]
        case hc2 =>
          rw [hmidv]
          push_neg
          refine ⟨hmidD, fun h => hm (Int.cast_injective h)⟩
      have hendt : t0 + D - t0 = D := by ring
      have hend : min (t0 + D - t0) D = D := by rw [hendt, min_self]
      have hendv : ((a : ℚ) + ((b : ℚ) - (a : ℚ)) / D * min (t0 + D - t0) D) = (b : ℚ) := by
        rw [hend]; field_simp
      have hs3 : (Transition.mk t0 (a : ℚ) (b : ℚ) D true 0).step (t0 + D) =
          (Transition.mk t0 (a : ℚ) (b : ℚ) D false 0, TEvent.complete (b : ℚ)) := by
        rw [step_run]
        rw [if_pos (Or.inl hend)]
        rw [hendv, jsRound_intCast]
      have hcast : ((a : ℚ) + (b : ℚ)) / 2 = (((a + b : ℤ) : ℚ)) / 2 := by push_cast; ring
      simp only [Transition.probeRun, Transition.stepTimes, hS, hs1, hs2, hs3]
      refine ⟨by simp [TEvent.isComplete], ?_, ?_, ?_⟩
      · intro h
        have h1 : a ≤ jsRound (((a : ℚ) + (b : ℚ)) / 2) := by
          apply Int.le_floor.mpr
          have : (a : ℚ) ≤ (b : ℚ) := Int.cast_le.mpr h
          linarith
        have h2 : jsRound (((a : ℚ) + (b : ℚ)) / 2) ≤ b := by
          have : jsRound (((a : ℚ) + (b : ℚ)) / 2) < b + 1 := by
            apply Int.floor_lt.mpr
            have : (a : ℚ) ≤ (b : ℚ) := Int.cast_le.mpr h
            push_cast
            linarith
          omega
        simp [TEvent.val?, List.chain'_cons, Int.cast_le.mpr h1, Int.cast_le.mpr h2]
      · intro h
        have h1 : b ≤ jsRound (((a : ℚ) + (b : ℚ)) / 2) := by
          apply Int.le_floor.mpr
          have : (b : ℚ) ≤ (a : ℚ) := Int.cast_le.mpr h
          linarith
        have h2 : jsRound (((a : ℚ) + (b : ℚ)) / 2) ≤ a := by
          have : jsRound (((a : ℚ) + (b : ℚ)) / 2) < a + 1 := by
            apply Int.floor_lt.mpr
            have : (b : ℚ) ≤ (a : ℚ) := Int.cast_le.mpr h
            push_cast
            linarith
          omega
        simp [TEvent.val?, List.chain'_cons, Int.cast_le.mpr h1, Int.cast_le.mpr h2]
      · simp [TEvent.val?]

/-- C5 witness: the probe sequence for a run from 0 to 5 over 10ms. -/
theorem c5_sequence_witness :
    (0 : ℚ) < 10 ∧
    (Transition.probeRun 0 10 0 5).countP (fun e => e.isComplete) = 1 ∧
    ((Transition.probeRun 0 10 0 5).filterMap TEvent.val?).getLast? = some ((5 : ℤ) : ℚ) := by
  refine ⟨by norm_num, (c5_sequence 0 10 0 5 (by norm_num)).1,
    (c5_sequence 0 10 0 5 (by norm_num)).2.2.2⟩

/-- Updating a world at an id and reading it back. -/
theorem wupd_self (w : World) (i : CharId) (s : CharState) : (wupd w i s) i = s := by
  simp [wupd]

/-- Updating a world at an id leaves every other id unchanged. -/
theorem wupd_ne (w : World) (i : CharId) (s : CharState) (j : CharId) (h : j ≠ i) :
    (wupd w i s) j = w j := by
  simp [wupd, h]

/-- Snapping to the current path cell does not touch the `interrupted`
flag. -/
theorem updatePositionOnGrid_interrupted (s : CharState) :
    (Character.updatePositionOnGrid s).interrupted = s.interrupted := by
  unfold Character.updatePositionOnGrid Character.setGridPosition
  cases hp : s.path with
  | none => rfl
  | some p =>
      cases hg : p[s.step]? with
      | none => simp [hg]
      | some c => simp [hg]

/-- One `nextStep()` on a combatant whose `interrupted` flag is pending:
the position snaps to the current path cell, the aggro check fires, the
flag is consumed, the path is cleared and the idle animation plus the
stop-pathing callback fire. -/
theorem nextStepF_interrupted (fuel : ℕ) (w : World) (a : CharId) (p : List Cell)
    (hp : (w a).path = some p) (hint : (w a).interrupted = true) :
    Character.nextStepF (fuel + 1) w a =
      (wupd w a { Character.updatePositionOnGrid (w a) with
                    interrupted := false, path := none },
       [CEvent.beforeStep, CEvent.checkAggro, CEvent.animIdle,
        CEvent.stopPathing (Character.updatePositionOnGrid (w a)).gridX
          (Character.updatePositionOnGrid (w a)).gridY]) := by
  have hint1 : (Character.updatePositionOnGrid (w a)).interrupted = true := by
    rw [updatePositionOnGrid_interrupted, hint]
  simp only [Character.nextStepF]
  rw [hp]
  simp only [hint1, if_true]
  rfl

/-- C6: on a moving combatant `stop()` mutates only the `interrupted`
flag — the combatant's path, step cursor, grid position and target are
all unchanged and every other combatant is untouched, so motion is not
halted at request time — and the next `nextStep()` call consumes the
flag, clears the path (making the combatant non-moving) and plays the
idle animation. -/
theorem c6_deferred_stop (w : World) (a : CharId) (p : List Cell)
    (hp : (w a).path = some p) (_hs : (w a).step < p.length) :
    (Character.stop w a) a = { w a with interrupted := true } ∧
    (∀ b, b ≠ a → (Character.stop w a) b = w b) ∧
    ((Character.nextStep (Character.stop w a) a).1 a).interrupted = false ∧
    ((Character.nextStep (Character.stop w a) a).1 a).path = none ∧
    Character.isMoving ((Character.nextStep (Character.stop w a) a).1 a) = false ∧
    CEvent.animIdle ∈ (Character.nextStep (Character.stop w a) a).2 := by
  have hmov : Character.isMoving (w a) = true := by
    simp [Character.isMoving, hp]
  have hstop : Character.stop w a = wupd w a { w a with interrupted := true } := by
    unfold Character.stop
    rw [if_pos hmov]
  have hp1 : ((Character.stop w a) a).path = some p := by
    rw [hstop, wupd_self]
    exact hp
  have hint1 : ((Character.stop w a) a).interrupted = true := by
    rw [hstop, wupd_self]
  have hns : Character.nextStep (Character.stop w a) a =
      Character.nextStepF (7 + 1) (Character.stop w a) a := rfl
  rw [hns, nextStepF_interrupted (7) (Character.stop w a) a p hp1 hint1]
  refine ⟨by rw [hstop, wupd_self], fun b hb => by rw [hstop, wupd_ne _ _ _ _ hb],
    by simp [wupd_self], by simp [wupd_self], by simp [Character.isMoving, wupd_self], by simp⟩

/-- C6 witness: a combatant on a two-cell path, stopped mid-tile. -/
theorem c6_deferred_stop_witness :
    ((fun i => if i = (1 : ℤ) then
        { CharState.init with path := some [(0, 0), (1, 0)] } else CharState.init : World) 1).path
      = some [(0, 0), (1, 0)] ∧
    ((Character.nextStep
        (Character.stop
          (fun i => if i = (1 : ℤ) then
            { CharState.init with path := some [(0, 0), (1, 0)] } else CharState.init) 1) 1).1
      1).path = none := by
  have hp : ((fun i => if i = (1 : ℤ) then
      { CharState.init with path := some [(0, 0), (1, 0)] } else CharState.init : World) 1).path
      = some [(0, 0), (1, 0)] := by norm_num
  exact ⟨hp, (c6_deferred_stop
    (fun i => if i = (1 : ℤ) then
      { CharState.init with path := some [(0, 0), (1, 0)] } else CharState.init) 1
    [(0, 0), (1, 0)] hp (by norm_num [CharState.init])).2.2.2.1⟩

/-- C9 counterexample: in `Updater.update()` the aggro poll
(`updatePlayerAggro`, third call) runs before the movement-stepping phase
(`updateTransitions`, fourth call), so the claimed order "movement
stepping, then aggro polling" does not hold: with an idle player and an
elapsed aggro timer at time 2000, the update trace polls aggro (and
fires the check) at position 2 and only steps interpolators at
position 3. -/
theorem c9_counterexample :
    (Updater.update (UpdaterSt.init 2000 (some ⟨false, false⟩))).2.take 3 =
      [Phase.zoning, Phase.characters, Phase.aggroPoll true] ∧
    ((Updater.update (UpdaterSt.init 2000 (some ⟨false, false⟩))).2)[3]? =
      some Phase.transitions := by
  have hfired : updatePlayerAggro (UpdaterSt.init 2000 (some ⟨false, false⟩)) =
      ({ UpdaterSt.init 2000 (some ⟨false, false⟩) with
          playerAggroTimer := Timer.mk 2000 1000 }, true) := by
    simp only [updatePlayerAggro, UpdaterSt.init, Timer.isOver, Timer.mk']
    norm_num
  constructor
  · simp [Updater.update, hfired]
  · simp [Updater.update, hfired]

/-- C9 amended: `update()` executes the fixed phase sequence in source
order — viewport zoning, character updates (starting motion
interpolators), aggro polling, movement stepping (each live combatant's
interpolator and the zoning interpolator), animation ticking, decorative
tile ticking, then the transient bubble and info timers — so zoning and
movement stepping both precede animation ticking, but the aggro poll runs
immediately before (not after) movement stepping.  The aggro check fires
only when a player combatant exists, is neither moving nor attacking, and
its consuming 1000 ms timer has elapsed — hence at most once per
duration window. -/
theorem c9_update_order :
    (∀ s : UpdaterSt, (Updater.update s).2 =
      [Phase.zoning, Phase.characters, Phase.aggroPoll (updatePlayerAggro s).2,
       Phase.transitions, Phase.animations, Phase.animatedTiles,
       Phase.chatBubbles, Phase.infos]) ∧
    (∀ s : UpdaterSt, (updatePlayerAggro s).2 = true →
      ∃ p, s.player = some p ∧ p.moving = false ∧ p.attacking = false ∧
        s.playerAggroTimer.duration < s.currentTime - s.playerAggroTimer.lastTime) ∧
    (∀ s : UpdaterSt, (updatePlayerAggro s).2 = true →
      ∀ (q : ℚ) (p' : Option PlayerFlags), q - s.currentTime ≤ s.playerAggroTimer.duration →
        (updatePlayerAggro
          { (Updater.update s).1 with currentTime := q, player := p' }).2 = false) ∧
    (∀ (t : ℚ) (p : Option PlayerFlags), (UpdaterSt.init t p).playerAggroTimer.duration = 1000) := by
  have hupd : ∀ s : UpdaterSt, Updater.update s =
      ((updatePlayerAggro s).1,
        [Phase.zoning, Phase.characters, Phase.aggroPoll (updatePlayerAggro s).2,
         Phase.transitions, Phase.animations, Phase.animatedTiles,
         Phase.chatBubbles, Phase.infos]) := by
    intro s
    rcases hsp : updatePlayerAggro s with ⟨s1, fired⟩
    simp [Updater.update, hsp]
  have hfire : ∀ s : UpdaterSt, (updatePlayerAggro s).2 = true →
      (∃ p, s.player = some p ∧ p.moving = false ∧ p.attacking = false ∧
        s.playerAggroTimer.duration < s.currentTime - s.playerAggroTimer.lastTime) ∧
      (updatePlayerAggro s).1 =
        { s with playerAggroTimer :=
            { lastTime := s.currentTime, duration := s.playerAggroTimer.duration } } := by
    rintro ⟨t, tm, pl⟩ h
    cases pl with
    | none => simp [updatePlayerAggro] at h
    | some p =>
        by_cases hmode : p.moving = false ∧ p.attacking = false
        · simp only [updatePlayerAggro, if_pos hmode] at h ⊢
          unfold Timer.isOver at h ⊢
          by_cases hcd : tm.duration < t - tm.lastTime
          · simp only [if_pos hcd] at h ⊢
            exact ⟨⟨p, rfl, hmode.1, hmode.2, hcd⟩, trivial⟩
          · simp [if_neg hcd] at h
        · simp [updatePlayerAggro, hmode] at h
  refine ⟨fun s => by rw [hupd], fun s h => (hfire s h).1, ?_, fun t p => rfl⟩
  intro s h q p' hwin
  have h1 := (hfire s h).2
  rw [hupd, h1]
  cases p' with
  | none => simp [updatePlayerAggro]
  | some p2 =>
      by_cases hmode : p2.moving = false ∧ p2.attacking = false
      · simp only [updatePlayerAggro, if_pos hmode]
        unfold Timer.isOver
        rw [if_neg (not_lt.mpr (by simpa using hwin))]
      · simp [updatePlayerAggro, hmode]

/-- C9 witness: an aggro check fired at time 2000 cannot fire again at
time 2500 (within the 1000 ms window), whatever the player then does. -/
theorem c9_update_order_witness :
    (updatePlayerAggro (UpdaterSt.init 2000 (some ⟨false, false⟩))).2 = true ∧
    (updatePlayerAggro
      { (Updater.update (UpdaterSt.init 2000 (some ⟨false, false⟩))).1 with
          currentTime := 2500, player := some ⟨false, false⟩ }).2 = false := by
  have hfired : (updatePlayerAggro (UpdaterSt.init 2000 (some ⟨false, false⟩))).2 = true := by
    simp only [updatePlayerAggro, UpdaterSt.init, Timer.isOver, Timer.mk']
    norm_num
  exact ⟨hfired, c9_update_order.2.2.1 (UpdaterSt.init 2000 (some ⟨false, false⟩)) hfired
    2500 (some ⟨false, false⟩) (by norm_num [UpdaterSt.init, Timer.mk'])⟩

/-- Snapping to the current path cell touches only the grid/pixel
position. -/
theorem updatePositionOnGrid_proj (s : CharState) :
    (Character.updatePositionOnGrid s).target = s.target ∧
    (Character.updatePositionOnGrid s).attackers = s.attackers ∧
    (Character.updatePositionOnGrid s).newDestination = s.newDestination ∧
    (Character.updatePositionOnGrid s).step = s.step ∧
    (Character.updatePositionOnGrid s).path = s.path := by
  unfold Character.updatePositionOnGrid Character.setGridPosition
  cases hp : s.path with
  | none => simp [hp]
  | some p =>
      cases hg : p[s.step]? with
      | none => simp [hg, hp]
      | some c => simp [hg, hp]

/-- The next-cell lookahead touches only `nextGridX`/`nextGridY`. -/
theorem advanceNextGrid_proj (s : CharState) (p : List Cell) :
    (Character.advanceNextGrid s p).target = s.target ∧
    (Character.advanceNextGrid s p).attackers = s.attackers ∧
    (Character.advanceNextGrid s p).newDestination = s.newDestination := by
  unfold Character.advanceNextGrid
  split <;> simp

/-- The walk-animation update of `updateMovement` touches only the
orientation. -/
theorem updateMovement_proj (s : CharState) :
    ((Character.updateMovement s).1).target = s.target ∧
    ((Character.updateMovement s).1).attackers = s.attackers := by
  unfold Character.updateMovement Character.walk
  cases hp : s.path with
  | none => simp
  | some p =>
      split
      · simp
      · dsimp only []
        split <;> split <;> split <;> split <;> simp

/-- Neither `nextStep` nor `followPath` touches the combat bookkeeping of
the stepping combatant (its target and attacker record), nor any other
combatant's state. -/
theorem char_frame : ∀ fuel : ℕ,
    (∀ w a, (((Character.nextStepF fuel w a).1 a).target = (w a).target ∧
             ((Character.nextStepF fuel w a).1 a).attackers = (w a).attackers) ∧
            ∀ c, c ≠ a → (Character.nextStepF fuel w a).1 c = w c) ∧
    (∀ w a p, (((Character.followPathF fuel w a p).1 a).target = (w a).target ∧
               ((Character.followPathF fuel w a p).1 a).attackers = (w a).attackers) ∧
              ∀ c, c ≠ a → (Character.followPathF fuel w a p).1 c = w c) := by
  intro fuel
  induction fuel with
  | zero =>
      constructor
      · intro w a
        simp [Character.nextStepF]
      · intro w a p
        by_cases hl : 1 < p.length
        · simp only [Character.followPathF, Character.nextStepF, if_pos hl]
          refine ⟨⟨?_, ?_⟩, fun c hc => ?_⟩
          · simp [wupd]
          · simp [wupd]
          · simp [wupd, hc]
        · simp [Character.followPathF, hl]
  | succ n ih =>
      have hns : ∀ w a, (((Character.nextStepF (n + 1) w a).1 a).target = (w a).target ∧
          ((Character.nextStepF (n + 1) w a).1 a).attackers = (w a).attackers) ∧
          ∀ c, c ≠ a → (Character.nextStepF (n + 1) w a).1 c = w c := by
        intro w a
        simp only [Character.nextStepF]
        cases hp : (w a).path with
        | none => exact ⟨⟨rfl, rfl⟩, fun c _ => rfl⟩
        | some p =>
            by_cases hi : (Character.updatePositionOnGrid (w a)).interrupted = true
            · simp only [hi, if_true]
              refine ⟨⟨?_, ?_⟩, fun c hc => ?_⟩
              · simp [wupd, (updatePositionOnGrid_proj (w a)).1]
              · simp [wupd, (updatePositionOnGrid_proj (w a)).2.1]
              · simp [wupd, hc]
            · rw [Bool.not_eq_true] at hi
              simp only [hi, Bool.false_eq_true, if_false]
              refine ⟨⟨?_, ?_⟩, fun c hc => ?_⟩
              · split
                · split
                  · simp [wupd, (updatePositionOnGrid_proj (w a)).1,
                      (advanceNextGrid_proj _ p).1]
                  · rw [(ih.2 _ a _).1.1]
                    simp [wupd, (updatePositionOnGrid_proj (w a)).1,
                      (advanceNextGrid_proj _ p).1]
                · split
                  · simp only [wupd_self]
                    rw [(updateMovement_proj _).1]
                    simp [(updatePositionOnGrid_proj (w a)).1,
                      (advanceNextGrid_proj _ p).1]
                  · simp [wupd, (updatePositionOnGrid_proj (w a)).1,
                      (advanceNextGrid_proj _ p).1]
              · split
                · split
                  · simp [wupd, (updatePositionOnGrid_proj (w a)).2.1,
                      (advanceNextGrid_proj _ p).2.1]
                  · rw [(ih.2 _ a _).1.2]
                    simp [wupd, (updatePositionOnGrid_proj (w a)).2.1,
                      (advanceNextGrid_proj _ p).2.1]
                · split
                  · simp only [wupd_self]
                    rw [(updateMovement_proj _).2]
                    simp [(updatePositionOnGrid_proj (w a)).2.1,
                      (advanceNextGrid_proj _ p).2.1]
                  · simp [wupd, (updatePositionOnGrid_proj (w a)).2.1,
                      (advanceNextGrid_proj _ p).2.1]
              · split
                · split
                  · simp [wupd, hc]
                  · rw [(ih.2 _ a _).2 c hc]
                    simp [wupd, hc]
                · split
                  · simp [wupd, hc]
                  · simp [wupd, hc]
      exact ⟨hns, by
        intro w a p
        by_cases hl : 1 < p.length
        · simp only [Character.followPathF, if_pos hl]
          refine ⟨⟨?_, ?_⟩, fun c hc => ?_⟩
          · rw [(hns _ a).1.1, wupd_self]
          · rw [(hns _ a).1.2, wupd_self]
          · rw [(hns _ a).2 c hc, wupd_ne _ _ _ _ hc]
        · simp [Character.followPathF, hl]⟩

/-- After `setTarget(b)`, the caller's target field holds `b` — whether
or not it already did. -/
theorem setTarget_target (w : World) (a b : CharId) :
    ((Character.setTarget w a b).1 a).target = some b := by
  unfold Character.setTarget
  by_cases hc : (w a).target ≠ some b
  · rw [if_pos hc]
    simp [wupd]
  · rw [if_neg hc]
    exact not_not.mp hc

/-- `removeTarget()` leaves every combatant other than the caller and its
current target untouched. -/
theorem removeTarget_frame (w : World) (a c : CharId) (hca : c ≠ a)
    (hct : (w a).target ≠ some c) : ((Character.removeTarget w a).1) c = w c := by
  unfold Character.removeTarget
  cases ht : (w a).target with
  | none => rfl
  | some t =>
      have hct' : c ≠ t := fun h => hct (by rw [ht, h])
      dsimp only
      rw [wupd_ne _ _ _ _ hca]
      unfold Character.removeAttacker
      simp only []
      split
      · dsimp only
        rw [wupd_ne _ _ _ _ hct']
      · rfl

/-- `removeTarget()` on a combatant holding target `t` clears the target
field and leaves the caller absent from `t`'s (duplicate-free) attacker
record. -/
theorem removeTarget_spec (w : World) (a t : CharId) (ht : (w a).target = some t) :
    ((Character.removeTarget w a).1 a).target = none ∧
    (a ≠ t → (w t).attackers.Nodup → a ∉ ((Character.removeTarget w a).1 t).attackers) := by
  unfold Character.removeTarget
  rw [ht]
  dsimp only
  constructor
  · simp [wupd]
  · intro hat hnd
    rw [wupd_ne _ _ _ _ (fun h => hat h.symm)]
    unfold Character.removeAttacker Character.isAttackedBy
    simp only []
    split
    · dsimp only
      rw [wupd_self]
      simp only []
      intro hmem
      exact absurd (hnd.mem_erase_iff.mp hmem).1 (by simp)
    · next hm =>
        simp only [decide_eq_true_eq] at hm
        exact hm

/-- `setTarget(b)` never touches `b`'s own state (for `b` distinct from
the caller): in particular it does not register the caller in `b`'s
attacker record. -/
theorem setTarget_b (w : World) (a b : CharId) (hba : b ≠ a) :
    ((Character.setTarget w a b).1) b = w b := by
  unfold Character.setTarget
  by_cases hc : (w a).target ≠ some b
  · rw [if_pos hc]
    dsimp only
    rw [wupd_ne _ _ _ _ hba]
    split
    · exact removeTarget_frame w a b hba hc
    · rfl
  · rw [if_neg hc]

/-- `moveTo_` preserves the caller's combat bookkeeping and every other
combatant. -/
theorem moveToF_frame (fuel : ℕ) (w : World) (a : CharId) (x y : ℤ) :
    (((Character.moveToF fuel w a x y).1 a).target = (w a).target ∧
     ((Character.moveToF fuel w a x y).1 a).attackers = (w a).attackers) ∧
    ∀ c, c ≠ a → (Character.moveToF fuel w a x y).1 c = w c := by
  unfold Character.moveToF
  simp only []
  split
  · refine ⟨⟨?_, ?_⟩, fun c hc => ?_⟩
    · simp [wupd, Character.continueTo]
    · simp [wupd, Character.continueTo]
    · simp [wupd, Character.continueTo, hc]
  · refine ⟨⟨?_, ?_⟩, fun c hc => ?_⟩
    · rw [((char_frame fuel).2 _ a _).1.1]
      simp [wupd]
    · rw [((char_frame fuel).2 _ a _).1.2]
      simp [wupd]
    · rw [((char_frame fuel).2 _ a _).2 c hc]
      simp [wupd, hc]

/-- `follow` preserves the caller's combat bookkeeping and every other
combatant. -/
theorem followF_frame (fuel : ℕ) (w : World) (a e : CharId) :
    (((Character.followF fuel w a e).1 a).target = (w a).target ∧
     ((Character.followF fuel w a e).1 a).attackers = (w a).attackers) ∧
    ∀ c, c ≠ a → (Character.followF fuel w a e).1 c = w c := by
  unfold Character.followF
  refine ⟨⟨?_, ?_⟩, fun c hc => ?_⟩
  · rw [(moveToF_frame fuel _ a _ _).1.1]
    simp [wupd]
  · rw [(moveToF_frame fuel _ a _ _).1.2]
    simp [wupd]
  · rw [(moveToF_frame fuel _ a _ _).2 c hc]
    simp [wupd, hc]

/-- `addAttacker` always leaves the attacker registered (a duplicate
registration is logged and ignored). -/
theorem addAttacker_mem (w : World) (t aId : CharId) :
    aId ∈ ((Character.addAttacker w t aId).1 t).attackers := by
  unfold Character.addAttacker Character.isAttackedBy
  simp only []
  split
  · next hm => simpa using hm
  · simp [wupd]

/-- C1 amended: `A.engage(B)` sets `A.target = B` but does not register
`A` in `B`'s attacker record — `B`'s state is completely untouched;
the registration is a separate `addAttacker` call by the game controller,
after which the bidirectional invariant holds.  Once `A` no longer
targets `B` — immediately after `A.disengage()` and after `A.die()` —
`A.target` is cleared and `A` is absent from `B`'s (duplicate-free)
attacker record. -/
theorem c1_attacker_bookkeeping (w : World) (a b : CharId) (hab : a ≠ b) :
    (((Character.engage w a b).1 a).target = some b ∧
     ((Character.engage w a b).1 b) = w b ∧
     a ∈ ((Character.addAttacker (Character.engage w a b).1 b a).1 b).attackers) ∧
    ((w a).target = some b →
      ((Character.disengage w a).1 a).target = none ∧
      ((w b).attackers.Nodup → a ∉ ((Character.disengage w a).1 b).attackers)) ∧
    ((w a).target = some b →
      ((Character.die w a).1 a).target = none ∧
      ((w b).attackers.Nodup → a ∉ ((Character.die w a).1 b).attackers)) := by
  refine ⟨⟨?_, ?_, ?_⟩, ?_, ?_⟩
  · show ((Character.engageF Character.defaultFuel w a b).1 a).target = some b
    unfold Character.engageF
    dsimp only
    rw [(followF_frame _ _ a b).1.1, setTarget_target]
  · show ((Character.engageF Character.defaultFuel w a b).1 b) = w b
    unfold Character.engageF
    dsimp only
    rw [(followF_frame _ _ a b).2 b (fun h => hab h.symm),
      setTarget_b _ a b (fun h => hab h.symm), wupd_ne _ _ _ _ (fun h => hab h.symm)]
  · exact addAttacker_mem _ b a
  · intro ht
    show ((Character.removeTarget (wupd w a
        { w a with attackingMode := false, followingMode := false }) a).1 a).target = none ∧ _
    have ht1 : ((wupd w a
        { w a with attackingMode := false, followingMode := false }) a).target = some b := by
      rw [wupd_self]
      show (w a).target = some b
      exact ht
    refine ⟨(removeTarget_spec _ a b ht1).1, fun hnd => ?_⟩
    exact (removeTarget_spec _ a b ht1).2 hab (by
      rwa [wupd_ne _ _ _ _ (fun h => hab h.symm)])
  · intro ht
    unfold Character.die
    dsimp only
    constructor
    · rw [wupd_self]
      exact (removeTarget_spec w a b ht).1
    · intro hnd
      rw [wupd_ne _ _ _ _ (fun h => hab h.symm)]
      exact (removeTarget_spec w a b ht).2 hab hnd

/-- C1 counterexample: for two fresh combatants, immediately after
`engage(1, 2)` combatant 1 targets combatant 2 but combatant 2's attacker
record is still empty — `engage` does not register the attacker, so the
claimed bidirectional invariant fails right after `engage`. -/
theorem c1_counterexample :
    ((Character.engage (fun _ => CharState.init) 1 2).1 1).target = some 2 ∧
    ((Character.engage (fun _ => CharState.init) 1 2).1 2).attackers = [] := by
  constructor
  · show ((Character.engageF Character.defaultFuel (fun _ => CharState.init) 1 2).1 1).target
      = some 2
    unfold Character.engageF
    dsimp only
    rw [(followF_frame _ _ 1 2).1.1, setTarget_target]
  · have h : ((Character.engage (fun _ => CharState.init) 1 2).1 2) = CharState.init := by
      show ((Character.engageF Character.defaultFuel (fun _ => CharState.init) 1 2).1 2)
        = CharState.init
      unfold Character.engageF
      dsimp only
      rw [(followF_frame _ _ 1 2).2 2 (by norm_num), setTarget_b _ 1 2 (by norm_num),
        wupd_ne _ _ _ _ (by norm_num)]
    rw [h]
    rfl

/-- C1 witness: the amended bookkeeping applied at a concrete world in
which combatant 1 targets combatant 2 — `disengage` clears the target. -/
theorem c1_attacker_bookkeeping_witness :
    ((fun i => if i = (1 : ℤ) then { CharState.init with target := some 2 }
        else { CharState.init with attackers := [1] } : World) 1).target = some 2 ∧
    ((Character.disengage
        (fun i => if i = (1 : ℤ) then { CharState.init with target := some 2 }
          else { CharState.init with attackers := [1] }) 1).1 1).target = none := by
  have hw : ((fun i => if i = (1 : ℤ) then { CharState.init with target := some 2 }
      else { CharState.init with attackers := [1] } : World) 1).target = some 2 := by norm_num
  exact ⟨hw, ((c1_attacker_bookkeeping _ 1 2 (by norm_num)).2.1 hw).1⟩

/-- A successful index read is in bounds. -/
theorem getElem?_some_lt {α : Type} {l : List α} {n : ℕ} {a : α}
    (h : l[n]? = some a) : n < l.length := by
  rcases List.getElem?_eq_some_iff.mp h with ⟨hl, _⟩
  exact hl

/-- A failed index read is out of bounds. -/
theorem getElem?_none_le {α : Type} {l : List α} {n : ℕ} (h : l[n]? = none) :
    l.length ≤ n :=
  List.getElem?_eq_none_iff.mp h

/-- An index read succeeds exactly in bounds. -/
theorem getElem?_isSome_iff {α : Type} {l : List α} {n : ℕ} :
    (l[n]?).isSome ↔ n < l.length := by
  constructor
  · intro h
    rcases Option.isSome_iff_exists.mp h with ⟨a, ha⟩
    exact getElem?_some_lt ha
  · intro h
    rw [List.getElem?_eq_getElem h]
    rfl

/-- Reading at natural coordinates needs no sign guard. -/
theorem getCell_nat (g : Grid) (x y : ℕ) :
    getCell g (x : ℤ) (y : ℤ) = (g[y]?).bind fun row => row[x]? := by
  unfold getCell
  rw [if_pos ⟨Int.natCast_nonneg x, Int.natCast_nonneg y⟩]
  simp

/-- A cell read succeeds exactly on in-bounds cells. -/
theorem getCell_isSome_iff (g : Grid) (x y : ℕ) :
    (getCell g (x : ℤ) (y : ℤ)).isSome ↔ cellInBounds g ((x : ℤ), (y : ℤ)) := by
  rw [getCell_nat]
  unfold cellInBounds
  cases hrow : g[y]? with
  | none =>
      have hlen := getElem?_none_le hrow
      simp [List.getD_eq_getElem?_getD, hrow]
  | some row =>
      have hlen := getElem?_some_lt hrow
      simp only [List.getD_eq_getElem?_getD, hrow, Option.some_bind, Option.getD_some,
        getElem?_isSome_iff, Int.toNat_ofNat]
      constructor
      · intro h
        exact ⟨Int.natCast_nonneg x, Int.natCast_nonneg y, by omega, h⟩
      · intro h
        exact h.2.2.2

/-- `setCell` keeps the number of rows. -/
theorem setCell_length (g : Grid) (x y : ℤ) (v : ℕ) :
    (setCell g x y v).length = g.length := by
  unfold setCell
  split
  · split <;> simp
  · rfl

/-- `setCell` keeps every row's length. -/
theorem setCell_shape (g : Grid) (x y : ℤ) (v : ℕ) (j : ℕ) :
    ((setCell g x y v)[j]?).map List.length = (g[j]?).map List.length := by
  unfold setCell
  split
  · cases hrow : g[y.toNat]? with
    | none => rfl
    | some row =>
        have hy : y.toNat < g.length := getElem?_some_lt hrow
        by_cases hj : y.toNat = j
        · subst hj
          rw [List.getElem?_set_self hy, hrow]
          simp
        · rw [List.getElem?_set_ne hj]
  · rfl

/-- Writing an in-bounds cell makes it read back the written value. -/
theorem getCell_setCell_same (g : Grid) (x y : ℤ) (v : ℕ)
    (hin : cellInBounds g (x, y)) : getCell (setCell g x y v) x y = some v := by
  obtain ⟨hx, hy, hylen, hxlen⟩ := hin
  unfold getCell setCell
  rw [if_pos ⟨hx, hy⟩, if_pos ⟨hx, hy⟩]
  cases hrow : g[y.toNat]? with
  | none =>
      exact absurd hylen (by have := getElem?_none_le hrow; omega)
  | some row =>
      have hrl : x.toNat < row.length := by
        rwa [List.getD_eq_getElem?_getD, hrow] at hxlen
      rw [List.getElem?_set_self (getElem?_some_lt hrow)]
      simp [List.getElem?_set_self hrl]

/-- Writing one cell does not change any other cell. -/
theorem getCell_setCell_ne (g : Grid) (x y x' y' : ℤ) (v : ℕ)
    (hne : (x', y') ≠ (x, y)) :
    getCell (setCell g x y v) x' y' = getCell g x' y' := by
  unfold getCell setCell
  by_cases hq : 0 ≤ x' ∧ 0 ≤ y'
  · rw [if_pos hq, if_pos hq]
    by_cases hs : 0 ≤ x ∧ 0 ≤ y
    · rw [if_pos hs]
      cases hrow : g[y.toNat]? with
      | none => rfl
      | some row =>
          by_cases hyy : y.toNat = y'.toNat
          · have hyint : y = y' := by
              have h1 := Int.toNat_of_nonneg hs.2
              have h2 := Int.toNat_of_nonneg hq.2
              omega
            have hxx : x.toNat ≠ x'.toNat := by
              intro hx
              apply hne
              have h1 := Int.toNat_of_nonneg hs.1
              have h2 := Int.toNat_of_nonneg hq.1
              have : x' = x := by omega
              rw [this, hyint]
            rw [← hyy, List.getElem?_set_self (getElem?_some_lt hrow), hrow]
            simp [List.getElem?_set_ne hxx]
          · rw [List.getElem?_set_ne hyy]
    · rw [if_neg hs]
  · rw [if_neg hq, if_neg hq]

/-- `applyIgnoreList_` on a whole list keeps the number of rows. -/
theorem applyEntities_length (L : List PEntity) (v : ℕ) (g : Grid) :
    (applyEntities L v g).length = g.length := by
  induction L generalizing g with
  | nil => rfl
  | cons e L ih =>
      show (applyEntities L v (applyEntity v g e)).length = g.length
      rw [ih]
      unfold applyEntity
      simp only []
      split
      · exact setCell_length _ _ _ _
      · rfl

/-- `applyIgnoreList_` on a whole list keeps every row's length. -/
theorem applyEntities_shape (L : List PEntity) (v : ℕ) (g : Grid) (j : ℕ) :
    ((applyEntities L v g)[j]?).map List.length = (g[j]?).map List.length := by
  induction L generalizing g with
  | nil => rfl
  | cons e L ih =>
      show ((applyEntities L v (applyEntity v g e))[j]?).map List.length = _
      rw [ih]
      unfold applyEntity
      simp only []
      split
      · exact setCell_shape _ _ _ _ _
      · rfl

/-- Bounds only depend on the grid's shape. -/
theorem cellInBounds_of_shape (g1 g2 : Grid)
    (hs : ∀ j : ℕ, (g1[j]?).map List.length = (g2[j]?).map List.length)
    (hl : g1.length = g2.length) (c : Cell) :
    cellInBounds g1 c ↔ cellInBounds g2 c := by
  unfold cellInBounds
  rw [hl]
  have hrow : (g1.getD c.2.toNat []).length = (g2.getD c.2.toNat []).length := by
    have := hs c.2.toNat
    rw [List.getD_eq_getElem?_getD, List.getD_eq_getElem?_getD]
    cases h1 : g1[c.2.toNat]? <;> cases h2 : g2[c.2.toNat]? <;>
      rw [h1, h2] at this <;> simp_all
  rw [hrow]

/-- Two grids of the same height agreeing on every cell read are equal. -/
theorem grid_ext (g1 g2 : Grid) (hlen : g1.length = g2.length)
    (hcell : ∀ x y : ℕ, getCell g1 (x : ℤ) (y : ℤ) = getCell g2 (x : ℤ) (y : ℤ)) :
    g1 = g2 := by
  apply List.ext_getElem?
  intro j
  by_cases hj : j < g1.length
  · have hj2 : j < g2.length := by omega
    have h1 : g1[j]? = some g1[j] := List.getElem?_eq_getElem hj
    have h2 : g2[j]? = some g2[j] := List.getElem?_eq_getElem hj2
    rw [h1, h2]
    have hr : g1[j] = g2[j] := by
      apply List.ext_getElem?
      intro i
      have hci := hcell i j
      rw [getCell_nat, getCell_nat, h1, h2] at hci
      simpa using hci
    rw [hr]
  · rw [List.getElem?_eq_none (by omega), List.getElem?_eq_none (by omega)]

/-- The pointwise effect of one `applyIgnoreList_` pass: every touched
in-bounds cell reads the written value, every other cell is unchanged. -/
theorem applyEntities_cell (L : List PEntity) (v : ℕ) (g : Grid) (x y : ℤ)
    (hin : cellInBounds g (x, y)) :
    getCell (applyEntities L v g) x y =
      if (x, y) ∈ touchedCells L then some v else getCell g x y := by
  induction L generalizing g with
  | nil => simp [applyEntities, touchedCells]
  | cons e L ih =>
      have hstep : applyEntities (e :: L) v g = applyEntities L v (applyEntity v g e) := rfl
      by_cases hg : 0 ≤ (exclCell e).1 ∧ 0 ≤ (exclCell e).2
      · have htc : touchedCells (e :: L) = exclCell e :: touchedCells L := by
          unfold touchedCells
          simp [List.filterMap_cons, hg]
        have happ : applyEntity v g e = setCell g (exclCell e).1 (exclCell e).2 v := by
          unfold applyEntity
          simp only []
          rw [if_pos hg]
        have hin2 : cellInBounds (setCell g (exclCell e).1 (exclCell e).2 v) (x, y) := by
          rw [cellInBounds_of_shape _ g (fun j => setCell_shape _ _ _ _ j)
            (setCell_length _ _ _ _)]
          exact hin
        rw [hstep, htc, happ, ih _ hin2]
        by_cases hL : (x, y) ∈ touchedCells L
        · simp [hL]
        · rw [if_neg hL]
          by_cases hc : (x, y) = exclCell e
          · have hx : x = (exclCell e).1 := by rw [← hc]
            have hy : y = (exclCell e).2 := by rw [← hc]
            rw [if_pos (by rw [hc]; exact List.mem_cons_self _ _)]
            rw [hx, hy]
            exact getCell_setCell_same _ _ _ _ (by rw [← hx, ← hy]; exact hin)
          · have hne : (x, y) ≠ ((exclCell e).1, (exclCell e).2) := fun h =>
              hc (h.trans (Prod.mk.eta))
            rw [getCell_setCell_ne _ _ _ _ _ _ hne]
            rw [if_neg (by simp [List.mem_cons, hc, hL])]
      · have htc : touchedCells (e :: L) = touchedCells L := by
          unfold touchedCells
          simp [List.filterMap_cons, hg]
        have happ : applyEntity v g e = g := by
          unfold applyEntity
          simp only []
          rw [if_neg hg]
        rw [hstep, htc, happ, ih _ hin]

/-- Applying the ignore list and then clearing it writes a `1` into every
touched cell; when every touched cell was blocked (`1`) to begin with and
lies in bounds, the grid comes back bit-for-bit. -/
theorem applyEntities_roundtrip (L : List PEntity) (g0 : Grid)
    (hb : ∀ c ∈ touchedCells L, cellInBounds g0 c ∧ getCell g0 c.1 c.2 = some 1) :
    applyEntities L 1 (applyEntities L 0 g0) = g0 := by
  apply grid_ext
  · rw [applyEntities_length, applyEntities_length]
  · intro x y
    by_cases hin : cellInBounds g0 ((x : ℤ), (y : ℤ))
    · have hinmid : cellInBounds (applyEntities L 0 g0) ((x : ℤ), (y : ℤ)) := by
        rw [cellInBounds_of_shape _ g0 (fun j => applyEntities_shape _ _ _ j)
          (applyEntities_length _ _ _)]
        exact hin
      rw [applyEntities_cell _ _ _ _ _ hinmid, applyEntities_cell _ _ _ _ _ hin]
      by_cases ht : ((x : ℤ), (y : ℤ)) ∈ touchedCells L
      · rw [if_pos ht, (hb _ ht).2]
      · rw [if_neg ht, if_neg ht]
    · have h0 : getCell g0 (x : ℤ) (y : ℤ) = none := by
        cases h : getCell g0 (x : ℤ) (y : ℤ) with
        | none => rfl
        | some u =>
            exact absurd ((getCell_isSome_iff g0 x y).mp (by rw [h]; rfl)) hin
      have h1 : getCell (applyEntities L 1 (applyEntities L 0 g0)) (x : ℤ) (y : ℤ) =
          none := by
        cases h : getCell (applyEntities L 1 (applyEntities L 0 g0)) (x : ℤ) (y : ℤ) with
        | none => rfl
        | some u =>
            have := (getCell_isSome_iff _ x y).mp (by rw [h]; rfl)
            rw [cellInBounds_of_shape _ (applyEntities L 0 g0)
                (fun j => applyEntities_shape _ _ _ j) (applyEntities_length _ _ _),
              cellInBounds_of_shape _ g0 (fun j => applyEntities_shape _ _ _ j)
                (applyEntities_length _ _ _)] at this
            exact absurd this hin
      rw [h0, h1]

/-- `findPath` leaves the pathfinder holding the caller's grid with the
ignore-list exclusions applied (cells zeroed); the ignore list itself is
unchanged. -/
theorem findPath_state (pf : Pathfinder) (g : Grid) (e : PEntity) (x y : ℤ) (inc : Bool) :
    (pf.findPath g e x y inc).1 =
      { pf with grid := some (applyEntities pf.ignored 0 g) } := rfl

/-- `clearIgnoreList` on a pathfinder holding a grid writes a `1` into
every ignored cell and empties the list. -/
theorem clearIgnoreList_state (pf : Pathfinder) (g : Grid) :
    Pathfinder.clearIgnoreList { pf with grid := some g } =
      { pf with grid := some (applyEntities pf.ignored 1 g), ignored := [] } := rfl

/-- C2 counterexample: a 1×1 grid whose only cell is walkable (`0`), with
the entity occupying that cell on the ignore list.  `findPath` then
`clearIgnoreList` leaves the grid as `[[1]]` — `clearIgnoreList` writes a
`1` unconditionally instead of restoring the original value, so the
round trip is not bit-for-bit. -/
theorem c2_counterexample :
    ((({ Pathfinder.mk' 1 1 with ignored := [⟨0, 0, -1, -1, false⟩] }).findPath [[0]]
        ⟨0, 0, -1, -1, false⟩ 0 0 false).1.clearIgnoreList).grid = some [[1]] ∧
    some ([[1]] : Grid) ≠ some [[0]] := by
  constructor
  · rfl
  · simp

/-- C2 amended: marking entities ignored, searching, and clearing the
ignore list restores the grid bit-for-bit provided every ignored entity's
exclusion cell lies in bounds and was blocked (`1`) before the search —
for the cell of an ignored entity that was originally walkable (`0`),
`clearIgnoreList` writes a `1` rather than restoring the `0`.  The
search itself never mutates the grid; only the exclusion writes do. -/
theorem c2_ignore_roundtrip (pf : Pathfinder) (g0 : Grid) (e : PEntity) (x y : ℤ)
    (inc : Bool)
    (hb : ∀ c ∈ touchedCells pf.ignored, cellInBounds g0 c ∧ getCell g0 c.1 c.2 = some 1) :
    ((pf.findPath g0 e x y inc).1.clearIgnoreList).grid = some g0 ∧
    ((pf.findPath g0 e x y inc).1.clearIgnoreList).ignored = [] := by
  rw [findPath_state, clearIgnoreList_state]
  exact ⟨congrArg some (applyEntities_roundtrip pf.ignored g0 hb), rfl⟩

/-- C2 witness: the same 1×1 scenario with the cell blocked (`1`) — the
round trip restores the grid. -/
theorem c2_ignore_roundtrip_witness :
    (∀ c ∈ touchedCells ({ Pathfinder.mk' 1 1 with
        ignored := [⟨0, 0, -1, -1, false⟩] } : Pathfinder).ignored,
      cellInBounds [[1]] c ∧ getCell [[1]] c.1 c.2 = some 1) ∧
    ((({ Pathfinder.mk' 1 1 with ignored := [⟨0, 0, -1, -1, false⟩] }).findPath [[1]]
        ⟨0, 0, -1, -1, false⟩ 0 0 false).1.clearIgnoreList).grid = some [[1]] := by
  have hb : ∀ c ∈ touchedCells ({ Pathfinder.mk' 1 1 with
      ignored := [⟨0, 0, -1, -1, false⟩] } : Pathfinder).ignored,
      cellInBounds [[1]] c ∧ getCell [[1]] c.1 c.2 = some 1 := by decide
  exact ⟨hb, (c2_ignore_roundtrip _ [[1]] ⟨0, 0, -1, -1, false⟩ 0 0 false hb).1⟩

/-- A cell read succeeds exactly on in-bounds cells (integer coordinates). -/
theorem getCell_isSome_iff' (g : Grid) (x y : ℤ) :
    (getCell g x y).isSome ↔ cellInBounds g (x, y) := by
  by_cases hq : 0 ≤ x ∧ 0 ≤ y
  · obtain ⟨x', rfl⟩ : ∃ x' : ℕ, x = (x' : ℤ) := ⟨x.toNat, (Int.toNat_of_nonneg hq.1).symm⟩
    obtain ⟨y', rfl⟩ : ∃ y' : ℕ, y = (y' : ℤ) := ⟨y.toNat, (Int.toNat_of_nonneg hq.2).symm⟩
    exact getCell_isSome_iff g x' y'
  · unfold getCell
    rw [if_neg hq]
    simp only [Option.isSome_none, Bool.false_eq_true, false_iff]
    intro hc
    exact hq ⟨hc.1, hc.2.1⟩

/-- A walkable cell is in bounds. -/
theorem cellInBounds_of_walkable (g : Grid) (c : Cell) (h : walkable g c) :
    cellInBounds g c := by
  have : (getCell g c.1 c.2).isSome := by rw [h]; rfl
  exact (getCell_isSome_iff' g c.1 c.2).mp this

/-- The search fails outright when the target cell is not walkable. -/
theorem astar_nil_of_target (g : Grid) (s t : Cell) (h : ¬ walkable g t) :
    astar g s t = [] := by
  unfold astar
  rw [if_neg (fun hc => h hc.2)]

/-- Reading the obstacle-free grid. -/
theorem getCell_blank (w h : ℕ) (x y : ℤ) :
    getCell (List.replicate h (List.replicate w (0 : ℕ))) x y =
      if 0 ≤ x ∧ 0 ≤ y ∧ y.toNat < h ∧ x.toNat < w then some 0 else none := by
  unfold getCell
  by_cases hq : 0 ≤ x ∧ 0 ≤ y
  · rw [if_pos hq]
    by_cases hy : y.toNat < h
    · rw [List.getElem?_replicate, if_pos hy]
      by_cases hx : x.toNat < w
      · rw [Option.some_bind, List.getElem?_replicate, if_pos hx,
          if_pos ⟨hq.1, hq.2, hy, hx⟩]
      · rw [Option.some_bind, List.getElem?_replicate, if_neg hx,
          if_neg (fun hc => hx hc.2.2.2)]
    · rw [List.getElem?_replicate, if_neg hy, if_neg (fun hc => hy hc.2.2.1)]
      rfl
  · rw [if_neg hq, if_neg (fun hc => hq ⟨hc.1, hc.2.1⟩)]

/-- Bounds on the obstacle-free companion grid match bounds on any grid
of the same dimensions. -/
theorem cellInBounds_blank_iff (w h : ℕ) (g : Grid) (hlen : g.length = h)
    (hrow : ∀ row ∈ g, row.length = w) (c : Cell) :
    cellInBounds (List.replicate h (List.replicate w (0 : ℕ))) c ↔ cellInBounds g c := by
  unfold cellInBounds
  rw [List.length_replicate, hlen]
  by_cases hy : c.2.toNat < h
  · have hb : (List.replicate h (List.replicate w (0 : ℕ))).getD c.2.toNat [] =
        List.replicate w 0 := by
      rw [List.getD_eq_getElem?_getD, List.getElem?_replicate, if_pos hy]
      rfl
    have hg : (g.getD c.2.toNat []).length = w := by
      rw [List.getD_eq_getElem?_getD]
      have hlt : c.2.toNat < g.length := by omega
      rw [List.getElem?_eq_getElem hlt]
      exact hrow _ (List.getElem_mem hlt)
    rw [hb, List.length_replicate, hg]
  · constructor
    · intro hc
      exact absurd hc.2.2.1 hy
    · intro hc
      exact absurd (by omega : c.2.toNat < h) hy

/-- The incomplete-path fallback yields nothing when even the
obstacle-free ideal search fails. -/
theorem findIncompletePath_blank_nil (pf : Pathfinder) (s t : Cell)
    (hb : astar pf.blankGrid s t = []) : pf.findIncompletePath s t = [] := by
  unfold Pathfinder.findIncompletePath
  rw [hb]
  rfl

/-- C10 counterexample: on a zero-size grid with a non-negative-cell
entity on the ignore list, `findPath` still returns the empty path but
the ignore-list application's write is out of bounds — the source guards
only against negative coordinates, so `this.grid[0][0] = 0` dereferences
a missing row (a TypeError in JS), contradicting "no grid cell outside
the bounds is ever read or written". -/
theorem c10_counterexample :
    ¬ ignoreWritesInBounds [(⟨0, 0, -1, -1, false⟩ : PEntity)] ([] : Grid) ∧
    (({ Pathfinder.mk' 0 0 with ignored := [⟨0, 0, -1, -1, false⟩] }).findPath []
        ⟨0, 0, -1, -1, false⟩ 0 0 true).2 = [] := by
  constructor
  · decide
  · rfl

/-- C10 amended: on a grid matching the pathfinder's dimensions, a
`findPath` call on a zero-size grid or with an out-of-bounds goal returns
the empty path (with or without the incomplete-path fallback), provided
every ignored entity's exclusion cell lies within the grid — without
that proviso the ignore-list application writes out of bounds (see the
counterexample). -/
theorem c10_oob_goal (w h : ℕ) (L : List PEntity) (g : Grid) (e : PEntity) (x y : ℤ)
    (inc : Bool)
    (hlen : g.length = h) (hrow : ∀ row ∈ g, row.length = w)
    (_hwb : ignoreWritesInBounds L g)
    (hoob : ¬ cellInBounds g (x, y)) :
    (({ Pathfinder.mk' w h with ignored := L }).findPath g e x y inc).2 = [] := by
  have hshape : ∀ j : ℕ, ((applyEntities L 0 g)[j]?).map List.length =
      (g[j]?).map List.length := fun j => applyEntities_shape L 0 g j
  have hnw : ¬ walkable (applyEntities L 0 g) (x, y) := by
    intro hwk
    apply hoob
    rw [← cellInBounds_of_shape _ g hshape (applyEntities_length _ _ _)]
    exact cellInBounds_of_walkable _ _ hwk
  have hnwb : ¬ walkable (List.replicate h (List.replicate w (0 : ℕ))) (x, y) := by
    intro hwk
    apply hoob
    rw [← cellInBounds_blank_iff w h g hlen hrow]
    exact cellInBounds_of_walkable _ _ hwk
  have hmain : astar (applyEntities L 0 g) (e.gridX, e.gridY) (x, y) = [] :=
    astar_nil_of_target _ _ _ hnw
  have hblank : astar (List.replicate h (List.replicate w (0 : ℕ)))
      (e.gridX, e.gridY) (x, y) = [] := astar_nil_of_target _ _ _ hnwb
  show (if (astar (applyEntities L 0 g) (e.gridX, e.gridY) (x, y) = [] ∧ inc = true) then
      Pathfinder.findIncompletePath _ (e.gridX, e.gridY) (x, y)
    else astar (applyEntities L 0 g) (e.gridX, e.gridY) (x, y)) = []
  by_cases hinc : inc = true
  · rw [if_pos ⟨hmain, hinc⟩]
    apply findIncompletePath_blank_nil
    show astar (List.replicate h (List.replicate w (0 : ℕ))) (e.gridX, e.gridY) (x, y) = []
    exact hblank
  · rw [if_neg (fun hc => hinc hc.2), hmain]

/-- C10 witness: a 2×2 grid with an out-of-bounds goal. -/
theorem c10_oob_goal_witness :
    ¬ cellInBounds [[0, 0], [0, 0]] (5, 0) ∧
    (({ Pathfinder.mk' 2 2 with ignored := [] }).findPath [[0, 0], [0, 0]]
        ⟨0, 0, -1, -1, false⟩ 5 0 true).2 = [] := by
  refine ⟨by decide, c10_oob_goal 2 2 [] [[0, 0], [0, 0]] ⟨0, 0, -1, -1, false⟩ 5 0 true
    (by decide) (by decide) (by decide) (by decide)⟩

/-- Neighbourhood membership, coordinatewise. -/
theorem mem_nbrs_iff (c d : Cell) :
    d ∈ nbrs c ↔
      (d.1 = c.1 - 1 ∧ d.2 = c.2) ∨ (d.1 = c.1 ∧ d.2 = c.2 - 1) ∨
      (d.1 = c.1 + 1 ∧ d.2 = c.2) ∨ (d.1 = c.1 ∧ d.2 = c.2 + 1) := by
  simp [nbrs, Prod.ext_iff]

/-- Orthogonal adjacency is symmetric. -/
theorem nbrs_symm (c d : Cell) : d ∈ nbrs c ↔ c ∈ nbrs d := by
  rw [mem_nbrs_iff, mem_nbrs_iff]
  omega

/-- One orthogonal step changes the Manhattan estimate by at most one. -/
theorem manhattan_nbrs_le (c d t : Cell) (h : d ∈ nbrs c) :
    manhattan c t ≤ manhattan d t + 1 := by
  rw [mem_nbrs_iff] at h
  unfold manhattan
  omega

/-- The Manhattan estimate vanishes exactly on the goal. -/
theorem manhattan_eq_zero_iff (c t : Cell) : manhattan c t = 0 ↔ c = t := by
  unfold manhattan
  rw [Prod.ext_iff]
  omega

/-- Unfolding one breadth-first layer of the modelled search. -/
theorem mem_reachN_succ (g : Grid) (t c : Cell) (n : ℕ) :
    c ∈ reachN g t (n + 1) ↔
      c ∈ reachN g t n ∨
      (walkable g c ∧ c ∉ reachN g t n ∧ ∃ d ∈ nbrs c, d ∈ reachN g t n) := by
  show c ∈ reachN g t n ++ _ ↔ _
  rw [List.mem_append]
  constructor
  · rintro (h | h)
    · exact Or.inl h
    · rw [List.mem_dedup, List.mem_filter] at h
      obtain ⟨hmem, hcond⟩ := h
      rw [List.mem_flatMap] at hmem
      obtain ⟨d, hd, hcd⟩ := hmem
      simp only [decide_eq_true_eq] at hcond
      exact Or.inr ⟨hcond.1, hcond.2, d, (nbrs_symm d c).mp hcd, hd⟩
  · rintro (h | ⟨hw, hn, d, hd, hdr⟩)
    · exact Or.inl h
    · refine Or.inr ?_
      rw [List.mem_dedup, List.mem_filter]
      refine ⟨List.mem_flatMap.mpr ⟨d, hdr, (nbrs_symm d c).mpr hd⟩, ?_⟩
      simp only [decide_eq_true_eq]
      exact ⟨hw, hn⟩

/-- Layers only grow. -/
theorem reachN_mono (g : Grid) (t : Cell) {m n : ℕ} (h : m ≤ n) :
    reachN g t m ⊆ reachN g t n := by
  induction n with
  | zero =>
      rw [Nat.le_zero.mp h]
      exact fun c hc => hc
  | succ n ih =>
      rcases Nat.lt_or_ge m (n + 1) with h' | h'
      · intro c hc
        rw [mem_reachN_succ]
        exact Or.inl (ih (by omega) hc)
      · rw [Nat.le_antisymm h h']
        exact fun c hc => hc

/-- Every reachable cell is walkable. -/
theorem walkable_of_mem_reachN (g : Grid) (t c : Cell) (n : ℕ) (h : c ∈ reachN g t n) :
    walkable g c := by
  induction n with
  | zero =>
      unfold reachN at h
      by_cases hw : walkable g t
      · rw [if_pos hw] at h
        rcases List.mem_singleton.mp h with rfl
        exact hw
      · rw [if_neg hw] at h
        exact absurd h (List.not_mem_nil c)
  | succ n ih =>
      rcases (mem_reachN_succ g t c n).mp h with h' | h'
      · exact ih h'
      · exact h'.1

/-- Membership in layer zero. -/
theorem mem_reachN_zero (g : Grid) (t c : Cell) (h : c ∈ reachN g t 0) : c = t := by
  unfold reachN at h
  by_cases hw : walkable g t
  · rw [if_pos hw] at h
    exact List.mem_singleton.mp h
  · rw [if_neg hw] at h
    exact absurd h (List.not_mem_nil c)

/-- A cell in some layer within fuel has a recorded distance. -/
theorem distUpTo_isSome_of_mem (g : Grid) (t c : Cell) (j n : ℕ)
    (hj : j ≤ n) (hmem : c ∈ reachN g t j) : (distUpTo g t c n).isSome := by
  induction n with
  | zero =>
      have hj0 : j = 0 := by omega
      subst hj0
      unfold distUpTo
      rw [if_pos hmem]
      rfl
  | succ n ih =>
      unfold distUpTo
      cases h2 : distUpTo g t c n with
      | some _ => rfl
      | none =>
          rcases Nat.lt_or_ge n j with hlt | hge
          · have hj2 : j = n + 1 := by omega
            subst hj2
            rw [if_pos hmem]
            rfl
          · have := ih hge
            rw [h2] at this
            exact absurd this (by simp)

/-- Soundness of the layer-scanning distance: a found value is the least
layer containing the cell, within fuel. -/
theorem distUpTo_sound (g : Grid) (t c : Cell) (n k : ℕ)
    (h : distUpTo g t c n = some k) :
    c ∈ reachN g t k ∧ (∀ j, j < k → c ∉ reachN g t j) ∧ k ≤ n := by
  induction n with
  | zero =>
      unfold distUpTo at h
      by_cases hm : c ∈ reachN g t 0
      · rw [if_pos hm] at h
        have hk : 0 = k := Option.some.inj h
        subst hk
        exact ⟨hm, fun j hj => by omega, le_refl 0⟩
      · rw [if_neg hm] at h
        exact absurd h (by simp)
  | succ n ih =>
      unfold distUpTo at h
      cases hrec : distUpTo g t c n with
      | some k0 =>
          rw [hrec] at h
          rcases Option.some.inj h with rfl
          obtain ⟨h1, h2, h3⟩ := ih hrec
          exact ⟨h1, h2, by omega⟩
      | none =>
          rw [hrec] at h
          by_cases hm : c ∈ reachN g t (n + 1)
          · rw [if_pos hm] at h
            rcases Option.some.inj h with rfl
            refine ⟨hm, fun j hj hmem => ?_, le_refl _⟩
            have hs := distUpTo_isSome_of_mem g t c j n (by omega) hmem
            rw [hrec] at hs
            exact absurd hs (by simp)
          · rw [if_neg hm] at h
            exact absurd h (by simp)

/-- Completeness of the layer-scanning distance. -/
theorem distUpTo_complete (g : Grid) (t c : Cell) (m f : ℕ)
    (hm : c ∈ reachN g t m) (hf : m ≤ f) :
    ∃ k, k ≤ m ∧ distUpTo g t c f = some k := by
  induction f with
  | zero =>
      have hm0 : m = 0 := by omega
      subst hm0
      refine ⟨0, le_refl 0, ?_⟩
      unfold distUpTo
      rw [if_pos hm]
  | succ f ih =>
      rcases Nat.lt_or_ge f m with hlt | hge
      · have hmf : m = f + 1 := by omega
        subst hmf
        unfold distUpTo
        cases hrec : distUpTo g t c f with
        | some k0 =>
            obtain ⟨_, _, h3⟩ := distUpTo_sound g t c f k0 hrec
            exact ⟨k0, by omega, rfl⟩
        | none =>
            rw [if_pos hm]
            exact ⟨f + 1, le_refl _, rfl⟩
      · obtain ⟨k, hk1, hk2⟩ := ih hge
        refine ⟨k, hk1, ?_⟩
        unfold distUpTo
        rw [hk2]

/-- The decrement property: a cell at distance `k + 1` has a neighbour at
distance exactly `k`. -/
theorem distUpTo_decrement (g : Grid) (t c : Cell) (f k : ℕ)
    (h : distUpTo g t c f = some (k + 1)) :
    ∃ d ∈ nbrs c, distUpTo g t d f = some k := by
  obtain ⟨hmem, hmin, hle⟩ := distUpTo_sound g t c f (k + 1) h
  have hnot : c ∉ reachN g t k := hmin k (by omega)
  rcases (mem_reachN_succ g t c k).mp hmem with h' | ⟨hw, _, d, hd, hdr⟩
  · exact absurd h' hnot
  · obtain ⟨j, hj1, hj2⟩ := distUpTo_complete g t d k f hdr (by omega)
    rcases Nat.lt_or_ge j k with hlt | hge
    · obtain ⟨hjmem, _, _⟩ := distUpTo_sound g t d f j hj2
      have hc1 : c ∈ reachN g t (j + 1) := by
        rw [mem_reachN_succ]
        by_cases hcj : c ∈ reachN g t j
        · exact Or.inl hcj
        · exact Or.inr ⟨hw, hcj, d, hd, hjmem⟩
      exact absurd hc1 (hmin (j + 1) (by omega))
    · have hjk : j = k := by omega
      subst hjk
      exact ⟨d, hd, hj2⟩

/-- Any nonempty layer forces the target itself to be walkable. -/
theorem walkable_target_of_mem_reachN (g : Grid) (t c : Cell) (n : ℕ)
    (h : c ∈ reachN g t n) : walkable g t := by
  induction n generalizing c with
  | zero =>
      by_cases hw : walkable g t
      · exact hw
      · unfold reachN at h
        rw [if_neg hw] at h
        exact absurd h (List.not_mem_nil c)
  | succ n ih =>
      rcases (mem_reachN_succ g t c n).mp h with h' | ⟨_, _, d, _, hdr⟩
      · exact ih c h'
      · exact ih d hdr

/-- The Manhattan estimate lower-bounds the layer index: layer `n` lies
inside the Manhattan ball of radius `n` on every grid. -/
theorem manhattan_le_of_mem_reachN (g : Grid) (t c : Cell) (n : ℕ)
    (h : c ∈ reachN g t n) : manhattan c t ≤ n := by
  induction n generalizing c with
  | zero =>
      have hct : c = t := mem_reachN_zero g t c h
      subst hct
      unfold manhattan
      omega
  | succ n ih =>
      rcases (mem_reachN_succ g t c n).mp h with h' | ⟨_, _, d, hd, hdr⟩
      · exact le_trans (ih c h') (by omega)
      · have h1 := manhattan_nbrs_le c d t hd
        have h2 := ih d hdr
        omega

/-- Correctness of the greedy descent: starting from a cell at recorded
distance `k`, the emitted path has length `k`, every cell of the consed
path sits at the expected decreasing distance, and the path ends at the
target. -/
theorem descend_spec (g : Grid) (t : Cell) (f : ℕ) :
    ∀ (k : ℕ) (c : Cell), distUpTo g t c f = some k →
      (c :: descend g t f c k).length = k + 1 ∧
      (∀ i, i ≤ k → ∃ ci, (c :: descend g t f c k).get? i = some ci ∧
          distUpTo g t ci f = some (k - i)) ∧
      (c :: descend g t f c k).getLast? = some t := by
  intro k
  induction k with
  | zero =>
      intro c h
      obtain ⟨hmem, _, _⟩ := distUpTo_sound g t c f 0 h
      have hct : c = t := mem_reachN_zero g t c hmem
      subst hct
      refine ⟨rfl, ?_, rfl⟩
      intro i hi
      have hi0 : i = 0 := by omega
      subst hi0
      exact ⟨c, rfl, h⟩
  | succ k ih =>
      intro c h
      obtain ⟨d, hd, hdk⟩ := distUpTo_decrement g t c f k h
      cases hf : (nbrs c).find? (fun d0 => distUpTo g t d0 f = some k) with
      | none =>
          exact absurd (decide_eq_true hdk) (List.find?_eq_none.mp hf d hd)
      | some d' =>
          have hd'k : distUpTo g t d' f = some k := by
            have hps := List.find?_some hf
            simp only [decide_eq_true_eq] at hps
            exact hps
          obtain ⟨ih1, ih2, ih3⟩ := ih d' hd'k
          have hdesc : descend g t f c (k + 1) = d' :: descend g t f d' k := by
            simp only [descend]
            rw [hf]
          rw [hdesc]
          refine ⟨by rw [List.length_cons, ih1], ?_, ?_⟩
          · intro i hi
            cases i with
            | zero => exact ⟨c, rfl, h⟩
            | succ j =>
                obtain ⟨cj, hj1, hj2⟩ := ih2 j (by omega)
                refine ⟨cj, ?_, ?_⟩
                · rw [List.get?_cons_succ]
                  exact hj1
                · rw [Nat.succ_sub_succ]
                  exact hj2
          · rw [List.getLast?_cons_cons]
            exact ih3

/-- A nonempty search result is the start cell followed by a greedy
descent from its recorded distance. -/
theorem astar_eq (g : Grid) (s t : Cell) (h : astar g s t ≠ []) :
    ∃ k, walkable g s ∧ walkable g t ∧ distUpTo g t s (gridFuel g) = some k ∧
      astar g s t = s :: descend g t (gridFuel g) s k := by
  by_cases hw : walkable g s ∧ walkable g t
  · cases hdd : distUpTo g t s (gridFuel g) with
    | some k =>
        refine ⟨k, hw.1, hw.2, rfl, ?_⟩
        unfold astar
        rw [if_pos hw]
        rw [hdd]
    | none =>
        exfalso
        apply h
        unfold astar
        rw [if_pos hw, hdd]
  · exfalso
    apply h
    unfold astar
    rw [if_neg hw]

/-- What a successful backward scan of the ideal path yields: a cell
walkable on the real grid, sitting at an index of the ideal path between
1 and the end. -/
theorem scanIdeal_some (g : Grid) (perfect : List Cell) (m : Cell)
    (h : scanIdeal g perfect = some m) :
    walkable g m ∧ ∃ i, 1 ≤ i ∧ i < perfect.length ∧ perfect.get? i = some m := by
  unfold scanIdeal at h
  have hp := List.find?_some h
  have hmem := List.mem_of_find?_eq_some h
  rw [List.mem_map] at hmem
  obtain ⟨i, hi, hieq⟩ := hmem
  rw [List.mem_reverse, List.mem_range'_1] at hi
  have hw : walkable g m := of_decide_eq_true hp
  have hlen : i < perfect.length := by omega
  refine ⟨hw, i, by omega, hlen, ?_⟩
  cases hq : perfect.get? i with
  | none =>
      have := List.get?_eq_none.mp hq
      omega
  | some c =>
      rw [hq] at hieq
      rw [← hieq]
      rfl

/-- Walkability on the obstacle-free grid is exactly being in its
rectangle. -/
theorem walkable_blank_iff (w h : ℕ) (c : Cell) :
    walkable (List.replicate h (List.replicate w (0 : ℕ))) c ↔
      0 ≤ c.1 ∧ 0 ≤ c.2 ∧ c.2.toNat < h ∧ c.1.toNat < w := by
  unfold walkable
  rw [getCell_blank]
  by_cases hq : 0 ≤ c.1 ∧ 0 ≤ c.2 ∧ c.2.toNat < h ∧ c.1.toNat < w
  · rw [if_pos hq]
    simp [hq]
  · rw [if_neg hq]
    simp [hq]

/-- On the obstacle-free grid every cell of the rectangle at Manhattan
distance at most `n` from the target lies in layer `n`. -/
theorem blank_ball_subset_reach (w h : ℕ) (t : Cell) (n : ℕ) :
    ∀ c : Cell, walkable (List.replicate h (List.replicate w (0 : ℕ))) t →
      walkable (List.replicate h (List.replicate w (0 : ℕ))) c →
      manhattan c t ≤ n →
      c ∈ reachN (List.replicate h (List.replicate w (0 : ℕ))) t n := by
  induction n with
  | zero =>
      intro c ht hc hm
      have hct : c = t := (manhattan_eq_zero_iff c t).mp (by omega)
      subst hct
      unfold reachN
      rw [if_pos ht]
      exact List.mem_singleton.mpr rfl
  | succ n ih =>
      intro c ht hc hm
      by_cases hm' : manhattan c t ≤ n
      · exact reachN_mono _ t (by omega) (ih c ht hc hm')
      · have hmn : manhattan c t = n + 1 := by omega
        have hex : ∃ d : Cell, d ∈ nbrs c ∧
            walkable (List.replicate h (List.replicate w (0 : ℕ))) d ∧
            manhattan d t = n := by
          have ht' := (walkable_blank_iff w h t).mp ht
          have hc' := (walkable_blank_iff w h c).mp hc
          unfold manhattan at hmn
          rcases lt_trichotomy c.1 t.1 with hx | hx | hx
          · refine ⟨(c.1 + 1, c.2), ?_, ?_, ?_⟩
            · rw [mem_nbrs_iff]
              exact Or.inr (Or.inr (Or.inl ⟨rfl, rfl⟩))
            · rw [walkable_blank_iff]
              show 0 ≤ c.1 + 1 ∧ 0 ≤ c.2 ∧ c.2.toNat < h ∧ (c.1 + 1).toNat < w
              omega
            · show (c.1 + 1 - t.1).natAbs + (c.2 - t.2).natAbs = n
              omega
          · rcases lt_trichotomy c.2 t.2 with hy | hy | hy
            · refine ⟨(c.1, c.2 + 1), ?_, ?_, ?_⟩
              · rw [mem_nbrs_iff]
                exact Or.inr (Or.inr (Or.inr ⟨rfl, rfl⟩))
              · rw [walkable_blank_iff]
                show 0 ≤ c.1 ∧ 0 ≤ c.2 + 1 ∧ (c.2 + 1).toNat < h ∧ c.1.toNat < w
                omega
              · show (c.1 - t.1).natAbs + (c.2 + 1 - t.2).natAbs = n
                omega
            · exfalso
              omega
            · refine ⟨(c.1, c.2 - 1), ?_, ?_, ?_⟩
              · rw [mem_nbrs_iff]
                exact Or.inr (Or.inl ⟨rfl, rfl⟩)
              · rw [walkable_blank_iff]
                show 0 ≤ c.1 ∧ 0 ≤ c.2 - 1 ∧ (c.2 - 1).toNat < h ∧ c.1.toNat < w
                omega
              · show (c.1 - t.1).natAbs + (c.2 - 1 - t.2).natAbs = n
                omega
          · refine ⟨(c.1 - 1, c.2), ?_, ?_, ?_⟩
            · rw [mem_nbrs_iff]
              exact Or.inl ⟨rfl, rfl⟩
            · rw [walkable_blank_iff]
              show 0 ≤ c.1 - 1 ∧ 0 ≤ c.2 ∧ c.2.toNat < h ∧ (c.1 - 1).toNat < w
              omega
            · show (c.1 - 1 - t.1).natAbs + (c.2 - t.2).natAbs = n
              omega
        obtain ⟨d, hdn, hdw, hdm⟩ := hex
        rw [mem_reachN_succ]
        by_cases hcr : c ∈ reachN (List.replicate h (List.replicate w (0 : ℕ))) t n
        · exact Or.inl hcr
        · exact Or.inr ⟨hc, hcr, d, hdn, ih d ht hdw (by omega)⟩

/-- On the obstacle-free grid the recorded distance never undercuts the
Manhattan distance. -/
theorem dist_le_manhattan_blank (w h : ℕ) (t s : Cell) (f k : ℕ)
    (hd : distUpTo (List.replicate h (List.replicate w (0 : ℕ))) t s f = some k) :
    k ≤ manhattan s t := by
  obtain ⟨hmem, hmin, _⟩ := distUpTo_sound _ t s f k hd
  by_contra hlt
  push_neg at hlt
  have hws := walkable_of_mem_reachN _ t s k hmem
  have hwt := walkable_target_of_mem_reachN _ t s k hmem
  exact hmin (manhattan s t) hlt
    (blank_ball_subset_reach w h t (manhattan s t) s hwt hws (le_refl _))

/-- C3 counterexample: grid `[[0, 0, 1, 0]]` (one row, cell `(2,0)`
blocked), start `(0,0)`, goal `(3,0)` unreachable.  The backward scan of
the ideal path finds the goal cell itself first — it is walkable, just
unreachable — breaks there, and the re-run search fails, so
`findPath(..., allowIncomplete=true)` returns the empty path even though
the walkable cell `(1,0)`, strictly closer to the goal than the start and
actually reachable, exists on the ideal path. -/
theorem c3_counterexample :
    astar [[0, 0, 1, 0]] (0, 0) (3, 0) = [] ∧
    ((Pathfinder.mk' 4 1).findPath [[0, 0, 1, 0]] ⟨0, 0, -1, -1, false⟩ 3 0 true).2 = [] ∧
    walkable [[0, 0, 1, 0]] (1, 0) ∧
    astar [[0, 0, 1, 0]] (0, 0) (1, 0) ≠ [] ∧
    manhattan (1, 0) (3, 0) < manhattan (0, 0) (3, 0) := by
  decide

/-- C3 (amended): with an empty ignore list and an unreachable goal,
`findPath` with `allowIncomplete` unset returns the empty path; with it
set, the result is empty when the backward scan of the blank-grid ideal
path finds no cell walkable on the real grid, and otherwise is the re-run
real search toward the single found cell — which, when that re-run
succeeds, is a nonempty path ending at a walkable cell strictly closer
(by the Manhattan heuristic) to the goal than the start.  The source
breaks the scan at the first walkable cell even when the re-run toward it
fails, so the spec's unconditional "non-empty path" does not hold. -/
theorem c3_incomplete_fallback (pf : Pathfinder) (g : Grid) (e : PEntity) (x y : ℤ)
    (hig : pf.ignored = [])
    (hbg : pf.blankGrid = List.replicate pf.height (List.replicate pf.width 0))
    (hun : astar g (e.gridX, e.gridY) (x, y) = []) :
    ((pf.findPath g e x y false).2 = []) ∧
    (scanIdeal g (astar pf.blankGrid (e.gridX, e.gridY) (x, y)) = none →
      (pf.findPath g e x y true).2 = []) ∧
    ∀ m, scanIdeal g (astar pf.blankGrid (e.gridX, e.gridY) (x, y)) = some m →
      (pf.findPath g e x y true).2 = astar g (e.gridX, e.gridY) m ∧
      walkable g m ∧
      (astar g (e.gridX, e.gridY) m ≠ [] →
        (pf.findPath g e x y true).2 ≠ [] ∧
        ((pf.findPath g e x y true).2).getLast? = some m ∧
        manhattan m (x, y) < manhattan (e.gridX, e.gridY) (x, y)) := by
  have hae : applyEntities pf.ignored 0 g = g := by
    rw [hig]
    rfl
  have hred : ∀ inc : Bool, (pf.findPath g e x y inc).2 =
      if inc = true then
        match scanIdeal g (astar pf.blankGrid (e.gridX, e.gridY) (x, y)) with
        | some c => astar g (e.gridX, e.gridY) c
        | none => []
      else [] := by
    intro inc
    show (if (astar (applyEntities pf.ignored 0 g) (e.gridX, e.gridY) (x, y) = [] ∧
          inc = true) then
        Pathfinder.findIncompletePath
          { pf with grid := some (applyEntities pf.ignored 0 g) } (e.gridX, e.gridY) (x, y)
      else astar (applyEntities pf.ignored 0 g) (e.gridX, e.gridY) (x, y)) = _
    rw [hae, hun]
    simp only [eq_self_iff_true, true_and]
    by_cases hinc : inc = true
    · rw [if_pos hinc, if_pos hinc]
      rfl
    · rw [if_neg hinc, if_neg hinc]
  refine ⟨by rw [hred false]; rfl, ?_, ?_⟩
  · intro hnone
    rw [hred true, if_pos rfl, hnone]
  · intro m hm
    have hres : (pf.findPath g e x y true).2 = astar g (e.gridX, e.gridY) m := by
      rw [hred true, if_pos rfl, hm]
    obtain ⟨hwm, i, hi1, hilen, hget⟩ := scanIdeal_some g _ m hm
    refine ⟨hres, hwm, ?_⟩
    intro hne
    rw [hbg] at hm hilen hget
    have hpne : astar (List.replicate pf.height (List.replicate pf.width 0))
        (e.gridX, e.gridY) (x, y) ≠ [] := by
      intro hc
      rw [hc] at hilen
      simp only [List.length_nil] at hilen
      omega
    obtain ⟨k, hws, hwt, hdist, heqp⟩ := astar_eq _ _ _ hpne
    obtain ⟨hlenp, hidx, _⟩ := descend_spec _ _ _ k _ hdist
    rw [heqp] at hilen hget
    rw [hlenp] at hilen
    obtain ⟨ci, hci1, hci2⟩ := hidx i (by omega)
    rw [hget] at hci1
    have hcim : ci = m := (Option.some.inj hci1).symm
    subst hcim
    have hmm : manhattan ci (x, y) ≤ k - i := by
      obtain ⟨hmem, _, _⟩ := distUpTo_sound _ _ _ _ _ hci2
      exact manhattan_le_of_mem_reachN _ _ _ _ hmem
    have hms : k ≤ manhattan (e.gridX, e.gridY) (x, y) :=
      dist_le_manhattan_blank pf.width pf.height _ _ _ _ hdist
    refine ⟨by rw [hres]; exact hne, ?_, by omega⟩
    obtain ⟨k', _, _, hdist', heq'⟩ := astar_eq g (e.gridX, e.gridY) ci hne
    obtain ⟨_, _, hlast'⟩ := descend_spec g ci (gridFuel g) k' _ hdist'
    rw [hres, heq']
    exact hlast'

/-- C3 witness: on `[[0, 0, 0, 1]]` the goal `(3,0)` itself is blocked;
the scan stops at `(2,0)` and the re-run search reaches it. -/
theorem c3_incomplete_fallback_witness :
    ((Pathfinder.mk' 4 1).findPath [[0, 0, 0, 1]] ⟨0, 0, -1, -1, false⟩ 3 0 true).2 ≠ [] ∧
    (((Pathfinder.mk' 4 1).findPath [[0, 0, 0, 1]] ⟨0, 0, -1, -1, false⟩ 3 0 true).2).getLast? =
      some (2, 0) ∧
    manhattan (2, 0) (3, 0) < manhattan (0, 0) (3, 0) :=
  ((c3_incomplete_fallback (Pathfinder.mk' 4 1) [[0, 0, 0, 1]] ⟨0, 0, -1, -1, false⟩ 3 0
      rfl rfl (by decide)).2.2 (2, 0) (by decide)).2.2 (by decide)

end Quest
